import Mathlib

/-!
Verification of `basic_auth/collection.py` from CanonicalLtd/basic-auth-service:
the in-memory and database-backed collections for Basic-Auth credentials.

The collection module depends on a few modules that are not part of the
verified source tree (`basic_auth/credential.py`, `basic_auth/lock.py`,
`basic_auth/db.py` and the generic `basic_auth/api` resource framework).
Those are modelled from the specification; every such definition carries a
doc comment starting with `Modelled from the spec:`.  Everything else is a
direct shallow embedding of `collection.py`.
-/

namespace BasicAuth

/-- Modelled from the spec: `hash_token256` from `basic_auth/credential.py`
(not in src/).  The spec treats the hash as a black-box one-way digest:
deterministic for equal inputs, producing a string usable as the second
token component (hence containing no `:` separator, and never equal to its
own input).  We model it as a concrete injective-enough encoding: prepend
the marker character `h` and replace any `:` by `;`. -/
def hashChar (c : Char) : Char := if c = ':' then ';' else c

/-- Modelled from the spec: the digest function, see `hashChar`. -/
def hash_token256 (s : String) : String := String.mk ('h' :: s.data.map hashChar)

theorem hash_token256_data (s : String) :
    (hash_token256 s).data = 'h' :: s.data.map hashChar := rfl

theorem hashChar_ne_colon (c : Char) : hashChar c ≠ ':' := by
  unfold hashChar
  split
  · decide
  · assumption

theorem colon_not_mem_hash (s : String) : ':' ∉ (hash_token256 s).data := by
  rw [hash_token256_data]
  intro h
  rcases List.mem_cons.mp h with h1 | h2
  · exact absurd h1.symm (by decide)
  · rcases List.mem_map.mp h2 with ⟨c, _, hc⟩
    exact hashChar_ne_colon c hc

theorem hash_token256_ne_self (s : String) : hash_token256 s ≠ s := by
  intro h
  have hdata : (hash_token256 s).data = s.data := congrArg String.data h
  rw [hash_token256_data] at hdata
  have hlen := congrArg List.length hdata
  simp at hlen

theorem hash_token256_data_ne_nil (s : String) : (hash_token256 s).data ≠ [] := by
  rw [hash_token256_data]
  simp

/-! ### Splitting on `:`

`_prep_token` uses Python's `token.split(':')` (split on every colon);
`BasicAuthCredentials.from_token` splits on the first colon.  We model both
on the underlying character list. -/

/-- Split a character list on every `:`; mirrors Python's `str.split(':')`
(`n` separators produce `n + 1` pieces, empty pieces included). -/
def splitOnColon : List Char → List (List Char)
  | [] => [[]]
  | c :: rest =>
    if c = ':' then [] :: splitOnColon rest
    else
      match splitOnColon rest with
      | [] => [[c]]
      | p :: ps => (c :: p) :: ps

/-- Split a character list at the first `:`, returning the part before and
the part after, or `none` when there is no colon. -/
def splitFirstColon : List Char → Option (List Char × List Char)
  | [] => none
  | c :: rest =>
    if c = ':' then some ([], rest)
    else (splitFirstColon rest).map (fun p => (c :: p.1, p.2))

theorem splitOnColon_ne_nil (l : List Char) : splitOnColon l ≠ [] := by
  induction l with
  | nil => simp [splitOnColon]
  | cons c rest ih =>
    unfold splitOnColon
    split
    · simp
    · cases h : splitOnColon rest with
      | nil => simp
      | cons p ps => simp

theorem splitFirstColon_eq_none (l : List Char) :
    splitFirstColon l = none ↔ ':' ∉ l := by
  induction l with
  | nil => simp [splitFirstColon]
  | cons c rest ih =>
    unfold splitFirstColon
    constructor
    · intro h
      by_cases hc : c = ':'
      · simp [hc] at h
      · simp [hc] at h
        simp [hc, Ne.symm]
        intro hmem
        exact (ih.mp h) hmem
    · intro h
      have hc : c ≠ ':' := fun hh => h (hh ▸ List.mem_cons_self c rest)
      have hrest : ':' ∉ rest := fun hh => h (List.mem_cons_of_mem c hh)
      simp [hc, ih.mpr hrest]

theorem splitFirstColon_eq_some (l u r : List Char) :
    splitFirstColon l = some (u, r) ↔ (':' ∉ u ∧ l = u ++ ':' :: r) := by
  induction l generalizing u r with
  | nil => simp [splitFirstColon]
  | cons c rest ih =>
    unfold splitFirstColon
    by_cases hc : c = ':'
    · subst hc
      simp only [if_pos rfl]
      constructor
      · intro h
        have h1 : ([], rest) = (u, r) := Option.some.inj h
        have hu : u = [] := (Prod.mk.injEq _ _ _ _ ▸ h1).1.symm
        have hr : rest = r := (Prod.mk.injEq _ _ _ _ ▸ h1).2
        subst hu
        subst hr
        exact ⟨by simp, rfl⟩
      · rintro ⟨hnc, heq⟩
        cases u with
        | nil => simp at heq; simp [heq]
        | cons d ds =>
          have : d = ':' := (List.cons.injEq _ _ _ _ ▸ heq).1.symm
          exact absurd (this ▸ List.mem_cons_self d ds) hnc
    · simp only [if_neg hc]
      constructor
      · intro h
        rcases Option.map_eq_some.mp h with ⟨⟨u0, r0⟩, hsp, heq⟩
        have hu : c :: u0 = u := (Prod.mk.injEq _ _ _ _ ▸ heq).1
        have hr : r0 = r := (Prod.mk.injEq _ _ _ _ ▸ heq).2
        rcases (ih u0 r0).mp hsp with ⟨hnc, hrest⟩
        subst hu
        subst hr
        constructor
        · intro hmem
          rcases List.mem_cons.mp hmem with h1 | h2
          · exact hc h1.symm
          · exact hnc h2
        · simp [hrest]
      · rintro ⟨hnc, heq⟩
        cases u with
        | nil =>
          have : c = ':' := (List.cons.injEq _ _ _ _ ▸ heq).1
          exact absurd this hc
        | cons d ds =>
          have hd : c = d := (List.cons.injEq _ _ _ _ ▸ heq).1
          have hrest : rest = ds ++ ':' :: r := (List.cons.injEq _ _ _ _ ▸ heq).2
          have hncds : ':' ∉ ds := fun hmem => hnc (List.mem_cons_of_mem d hmem)
          have := (ih ds r).mpr ⟨hncds, hrest⟩
          rw [this]
          simp [hd]

/-! ### The credential codec (`basic_auth/credential.py`, not in src/) -/

/-- Modelled from the spec: `BasicAuthCredentials` from
`basic_auth/credential.py` (not in src/): a username/password pair whose
on-the-wire form is the token `username:password`. -/
structure BasicAuthCredentials where
  username : String
  password : String
deriving DecidableEq, Repr

/-- Modelled from the spec: `BasicAuthCredentials.from_token` (not in src/):
splits the token on the first `:`; fails with `MalformedToken` (here:
`none`) if the result is not exactly two non-empty parts. -/
def BasicAuthCredentials.from_token (token : String) : Option BasicAuthCredentials :=
  match splitFirstColon token.data with
  | none => none
  | some (u, p) => if u = [] ∨ p = [] then none else some ⟨String.mk u, String.mk p⟩

/-- Modelled from the spec: `str(credentials)` (not in src/): serializes back
to the `username:password` token form. -/
def BasicAuthCredentials.toToken (a : BasicAuthCredentials) : String :=
  a.username ++ ":" ++ a.password

/-- Well-formedness of a credential pair: both components non-empty and the
username free of the `:` separator.  `from_token` guarantees this shape for
parsed credentials; per the spec, generated credentials "never collide with
the `:` separator character". -/
def wfCred (a : BasicAuthCredentials) : Prop :=
  a.username.data ≠ [] ∧ ':' ∉ a.username.data ∧ a.password.data ≠ []

instance (a : BasicAuthCredentials) : Decidable (wfCred a) := by
  unfold wfCred
  infer_instance

theorem toToken_data (a : BasicAuthCredentials) :
    a.toToken.data = a.username.data ++ ':' :: a.password.data := by
  show (a.username ++ ":" ++ a.password).data = _
  rw [String.data_append, String.data_append, List.append_assoc]
  rfl

theorem from_token_eq_of_split (token : String) (u r : List Char)
    (hsp : splitFirstColon token.data = some (u, r)) :
    BasicAuthCredentials.from_token token =
      if u = [] ∨ r = [] then none else some ⟨String.mk u, String.mk r⟩ := by
  unfold BasicAuthCredentials.from_token
  rw [hsp]

theorem from_token_wfCred (token : String) (a : BasicAuthCredentials)
    (h : BasicAuthCredentials.from_token token = some a) : wfCred a := by
  cases hsp : splitFirstColon token.data with
  | none =>
    unfold BasicAuthCredentials.from_token at h
    rw [hsp] at h
    exact Option.noConfusion h
  | some ur =>
    obtain ⟨u, r⟩ := ur
    rw [from_token_eq_of_split token u r hsp] at h
    by_cases hnil : u = [] ∨ r = []
    · rw [if_pos hnil] at h; exact Option.noConfusion h
    · rw [if_neg hnil] at h
      push_neg at hnil
      have ha : a = ⟨String.mk u, String.mk r⟩ := (Option.some.inj h).symm
      have hcolon := ((splitFirstColon_eq_some token.data u r).mp hsp).1
      subst ha
      exact ⟨hnil.1, hcolon, hnil.2⟩

theorem from_token_toToken (a : BasicAuthCredentials) (h : wfCred a) :
    BasicAuthCredentials.from_token a.toToken = some a := by
  obtain ⟨hu, hc, hp⟩ := h
  have hsp : splitFirstColon a.toToken.data = some (a.username.data, a.password.data) :=
    (splitFirstColon_eq_some _ _ _).mpr ⟨hc, toToken_data a⟩
  rw [from_token_eq_of_split _ _ _ hsp, if_neg (by simp [hu, hp])]

/-! ### `_prep_token` and `_get_auth` (from `collection.py` src) -/

/-- The body of `_prep_token` for a present token: split on every `:`;
when that yields exactly two non-empty parts, replace the second by its
hash and re-join with `:`; otherwise return the token unchanged. -/
def prepBody (t : String) : String :=
  match splitOnColon t.data with
  | [u, p] =>
    if u ≠ [] ∧ p ≠ [] then String.mk u ++ ":" ++ hash_token256 (String.mk p)
    else t
  | _ => t

/-- Embedding of `_prep_token` from `collection.py`: return `None` for
`None` (the early `return`), otherwise apply `prepBody`. -/
def _prep_token (token : Option String) : Option String :=
  token.map prepBody

/-- Embedding of `_get_auth` from `collection.py`: parse the token into
`BasicAuthCredentials` when it is present and non-empty (Python truthiness
of `if token:`), otherwise generate fresh credentials.  The random draw of
`BasicAuthCredentials.generate` is passed in as the argument `gen`; `none`
means `from_token` raised `MalformedToken`. -/
def _get_auth (gen : BasicAuthCredentials) (token : Option String) : Option BasicAuthCredentials :=
  match token with
  | some t => if t ≠ "" then BasicAuthCredentials.from_token t else some gen
  | none => some gen

/-! ### Error taxonomy and request details -/

/-- The error taxonomy of `basic_auth/api/error.py` (declared outside src/):
`ResourceAlreadyExists`, `ResourceNotFound`, `InvalidResourceDetails`, plus
the codec's `MalformedToken`.  A raised exception is embedded as an
`Except.error` carrying one of these. -/
inductive CollError where
  | ResourceAlreadyExists
  | ResourceNotFound
  | InvalidResourceDetails
  | MalformedToken
deriving DecidableEq, Repr

/-- The `details` dict handed to `create`/`update`: a `user` key (accessed
with `details['user']`, so mandatory) and an optional `token` key (accessed
with `details.get('token')`; `none` covers both a missing key and an
explicit `None`). -/
structure Details where
  user : String
  token : Option String
deriving DecidableEq, Repr

namespace MemoryCredentialsCollection

/-- `self.items` of the in-memory collection: an insertion-ordered
association list from `user` key to the stored token string, mirroring the
Python dict of `SampleResourceCollection` (the stored details dicts always
have their `user` field equal to the key, so only the token is kept). -/
def lookupUser : List (String × String) → String → Option String
  | [], _ => none
  | (u, t) :: rest, user => if u = user then some t else lookupUser rest user

/-- Modelled from the spec: `SampleResourceCollection.create` from
`basic_auth/api/sample.py` (not in src/): the generic keyed insert — fails
with `AlreadyExists` if the `user` key is already present, otherwise stores
the details under the key (Python dicts append new keys at the end) and
returns the stored details. -/
def sampleCreate (items : List (String × String)) (user token : String) :
    List (String × String) × Except CollError (String × String) :=
  match lookupUser items user with
  | some _ => (items, .error .ResourceAlreadyExists)
  | none => (items ++ [(user, token)], .ok (user, token))

/-- Modelled from the spec: `SampleResourceCollection.update` (not in
src/): overwrite the details stored under the key, `NotFound` if the key is
absent. -/
def sampleUpdate : List (String × String) → String → String →
    List (String × String) × Except CollError (String × String)
  | [], _, _ => ([], .error .ResourceNotFound)
  | (u, t) :: rest, user, token =>
    if u = user then ((u, token) :: rest, .ok (user, token))
    else ((u, t) :: (sampleUpdate rest user token).1, (sampleUpdate rest user token).2)

/-- Modelled from the spec: `SampleResourceCollection.delete` (not in
src/): remove the entry stored under the key, `NotFound` if absent. -/
def sampleDelete : List (String × String) → String →
    List (String × String) × Except CollError Unit
  | [], _ => ([], .error .ResourceNotFound)
  | (u, t) :: rest, user =>
    if u = user then (rest, .ok ())
    else ((u, t) :: (sampleDelete rest user).1, (sampleDelete rest user).2)

/-- Embedding of `MemoryCredentialsCollection._check_duplicated_username`:
walk `self.items`, parse each stored token, and raise
`InvalidResourceDetails` if a *different* user already owns the username.
A stored token that fails to parse propagates `MalformedToken`, exactly as
the Python `from_token` call inside the loop would. -/
def _check_duplicated_username (items : List (String × String)) (user username : String) :
    Except CollError Unit :=
  match items with
  | [] => .ok ()
  | (otherUser, tok) :: rest =>
    match BasicAuthCredentials.from_token tok with
    | none => .error .MalformedToken
    | some auth =>
      if auth.username = username ∧ user ≠ otherUser then .error .InvalidResourceDetails
      else _check_duplicated_username rest user username

/-- Embedding of `MemoryCredentialsCollection.create`: prepare the token,
derive the credentials (generating a pair `gen` when the token is absent or
empty), check username uniqueness, then hand over to the generic insert
with `details['token'] = str(auth)`.  The pair returned is (items after the
call, result). -/
def create (gen : BasicAuthCredentials) (items : List (String × String)) (details : Details) :
    List (String × String) × Except CollError (String × String) :=
  match _get_auth gen (_prep_token details.token) with
  | none => (items, .error .MalformedToken)
  | some auth =>
    match _check_duplicated_username items details.user auth.username with
    | .error e => (items, .error e)
    | .ok _ => sampleCreate items details.user auth.toToken

/-- Embedding of `MemoryCredentialsCollection.update`: same token
preparation and uniqueness check as `create` (the check excludes `user`
itself), then the generic overwrite. -/
def update (gen : BasicAuthCredentials) (items : List (String × String))
    (user : String) (details : Details) :
    List (String × String) × Except CollError (String × String) :=
  match _get_auth gen (_prep_token details.token) with
  | none => (items, .error .MalformedToken)
  | some auth =>
    match _check_duplicated_username items user auth.username with
    | .error e => (items, .error e)
    | .ok _ => sampleUpdate items user auth.toToken

/-- Embedding of `MemoryCredentialsCollection.delete`: the generic keyed
delete (the wrapper only adds locking). -/
def delete (items : List (String × String)) (resId : String) :
    List (String × String) × Except CollError Unit :=
  sampleDelete items resId

/-- Embedding of `MemoryCredentialsCollection.get`: the generic keyed
lookup (the wrapper only adds locking); returns the stored details. -/
def get (items : List (String × String)) (resId : String) :
    Except CollError (String × String) :=
  match lookupUser items resId with
  | some tok => .ok (resId, tok)
  | none => .error .ResourceNotFound

/-- Embedding of `MemoryCredentialsCollection.get_all`: returns all stored
credentials. -/
def get_all (items : List (String × String)) : List (String × String) := items

/-- Embedding of `MemoryCredentialsCollection.credentials_match`: format
`username:hash_token256(password)` and test membership among all stored
token strings. -/
def credentials_match (items : List (String × String)) (username password : String) : Bool :=
  decide ((username ++ ":" ++ hash_token256 password) ∈ items.map Prod.snd)

/-- `MemoryCredentialsCollection.VALID_API_CREDENTIALS`, the fixed
credentials for API access. -/
def VALID_API_CREDENTIALS : String × String := ("user", "pass")

/-- Embedding of `MemoryCredentialsCollection.api_credentials_match`:
exact-string comparison with the fixed pair, independent of the stored
collection. -/
def api_credentials_match (username password : String) : Bool :=
  decide ((username, password) = VALID_API_CREDENTIALS)

end MemoryCredentialsCollection

namespace DataBaseCredentialsCollection

/-- Modelled from the spec: a stored credentials record of the persistence
model (`basic_auth/db.py`, not in src/): it exposes `user`, the auth pair
(`username` and the stored password hash), and a `password_match`
capability.  Per the spec, `password_hash` is always the output of the hash
function — a plaintext password is never persisted as-is — so the record
holds the digest. -/
structure DBRecord where
  user : String
  username : String
  passwordHash : String
deriving DecidableEq, Repr

/-- The token form `str(credentials.auth)` of a stored record. -/
def DBRecord.authToken (r : DBRecord) : String := r.username ++ ":" ++ r.passwordHash

/-- Modelled from the spec: `record.password_match(password)` — the spec
keeps "hash comparison logic colocated with the record": digest the
supplied password and compare with the stored hash. -/
def DBRecord.password_match (r : DBRecord) (password : String) : Bool :=
  decide (hash_token256 password = r.passwordHash)

/-- Modelled from the spec: `model.is_known_user(user)`. -/
def is_known_user (db : List DBRecord) (user : String) : Bool :=
  db.any (fun r => decide (r.user = user))

/-- Modelled from the spec: `model.get_credentials(user=...)` — the stored
record with the given user key, or none. -/
def get_credentials_by_user (db : List DBRecord) (user : String) : Option DBRecord :=
  db.find? (fun r => decide (r.user = user))

/-- Modelled from the spec: `model.get_credentials(username=...)` — the
stored record with the given username, or none. -/
def get_credentials_by_username (db : List DBRecord) (username : String) : Option DBRecord :=
  db.find? (fun r => decide (r.username = username))

/-- Modelled from the spec: `model.add_credentials(user, username,
password)` — persist a new record; the model stores the digest of the
supplied password (the spec forbids persisting a plaintext as-is). -/
def add_credentials (db : List DBRecord) (user username password : String) : List DBRecord :=
  db ++ [⟨user, username, hash_token256 password⟩]

/-- Modelled from the spec: `model.update_credentials(user, username,
password)` — replace the username and (hashed) password of the record keyed
by `user`. -/
def update_credentials (db : List DBRecord) (user username password : String) : List DBRecord :=
  db.map (fun r => if r.user = user then ⟨user, username, hash_token256 password⟩ else r)

/-- Modelled from the spec: `model.remove_credentials(user)` — delete the
records keyed by `user` and report whether anything was removed. -/
def remove_credentials (db : List DBRecord) (user : String) : List DBRecord × Bool :=
  (db.filter (fun r => !decide (r.user = user)), is_known_user db user)

/-- Embedding of `DataBaseCredentialsCollection._check_duplicated_username`:
look the username up through the model; if a record exists and belongs to a
different user, raise `InvalidResourceDetails`. -/
def _check_duplicated_username (db : List DBRecord) (user username : String) :
    Except CollError Unit :=
  match get_credentials_by_username db username with
  | none => .ok ()
  | some credentials =>
    if credentials.user ≠ user then .error .InvalidResourceDetails else .ok ()

/-- Embedding of `DataBaseCredentialsCollection.create`.  Each `@transact`
operation is embedded as (state after the call, result); an exception rolls
the transaction back, leaving the state unchanged.  Note the source order:
the `is_known_user` check comes first, then `_get_auth` (there is no
`_prep_token` call in this backend), then the uniqueness check, then the
write.  The returned pair stands for `(user, \x7b'user': user, 'token':
str(auth)\x7d)`. -/
def create (gen : BasicAuthCredentials) (db : List DBRecord) (details : Details) :
    List DBRecord × Except CollError (String × String) :=
  if is_known_user db details.user then (db, .error .ResourceAlreadyExists)
  else
    match _get_auth gen details.token with
    | none => (db, .error .MalformedToken)
    | some auth =>
      match _check_duplicated_username db details.user auth.username with
      | .error e => (db, .error e)
      | .ok _ =>
        (add_credentials db details.user auth.username auth.password,
         .ok (details.user, auth.toToken))

/-- Embedding of `DataBaseCredentialsCollection.get_all`: the
`\x7buser, username\x7d` summaries of all stored records (the optional
date-range filter of the model query is outside the verified claims and is
not modelled). -/
def get_all (db : List DBRecord) : List (String × String) :=
  db.map (fun credentials => (credentials.user, credentials.username))

/-- Embedding of `DataBaseCredentialsCollection.delete`: remove through the
model; `ResourceNotFound` when nothing was removed (the transaction then
rolls back). -/
def delete (db : List DBRecord) (user : String) : List DBRecord × Except CollError Unit :=
  match remove_credentials db user with
  | (db2, removed) => if removed then (db2, .ok ()) else (db, .error .ResourceNotFound)

/-- Embedding of `DataBaseCredentialsCollection.get`: look the user up
through the model; `ResourceNotFound` when absent, otherwise the
`\x7buser, token\x7d` representation with `token = str(credentials.auth)`. -/
def get (db : List DBRecord) (user : String) : Except CollError (String × String) :=
  match get_credentials_by_user db user with
  | none => .error .ResourceNotFound
  | some credentials => .ok (user, credentials.authToken)

/-- Embedding of `DataBaseCredentialsCollection.update`: `ResourceNotFound`
for an unknown user, then the same token derivation and uniqueness check as
`create`, then the write through the model. -/
def update (gen : BasicAuthCredentials) (db : List DBRecord) (user : String) (details : Details) :
    List DBRecord × Except CollError (String × String) :=
  if is_known_user db user then
    match _get_auth gen details.token with
    | none => (db, .error .MalformedToken)
    | some auth =>
      match _check_duplicated_username db user auth.username with
      | .error e => (db, .error e)
      | .ok _ => (update_credentials db user auth.username auth.password, .ok (user, auth.toToken))
  else (db, .error .ResourceNotFound)

/-- Embedding of `DataBaseCredentialsCollection.credentials_match`: look up
by username; absence is a negative boolean result, otherwise delegate to
the record's `password_match`. -/
def credentials_match (db : List DBRecord) (username password : String) : Bool :=
  match get_credentials_by_username db username with
  | none => false
  | some credentials => credentials.password_match password

/-- Modelled from the spec: `model.get_api_credentials(username)` consults
a separate API-credentials table, modelled as its own record list. -/
def get_api_credentials (apiDb : List DBRecord) (username : String) : Option DBRecord :=
  apiDb.find? (fun r => decide (r.username = username))

/-- Embedding of `DataBaseCredentialsCollection.api_credentials_match`:
look up API credentials by username; absence is a negative boolean result,
otherwise delegate to `password_match`. -/
def api_credentials_match (apiDb : List DBRecord) (username password : String) : Bool :=
  match get_api_credentials apiDb username with
  | none => false
  | some credentials => credentials.password_match password

end DataBaseCredentialsCollection

/-! ### Observed record fields

The username/password "embedded in a stored token", extracted with the
codec, as used by the uniqueness invariant. -/

/-- The username embedded in a stored token string, when it parses. -/
def tokUsername (t : String) : Option String :=
  (BasicAuthCredentials.from_token t).map (fun a => a.username)

/-- The password hash embedded in a stored token string, when it parses. -/
def tokPassword (t : String) : Option String :=
  (BasicAuthCredentials.from_token t).map (fun a => a.password)

/-! ### Operation sequences

To state the uniqueness invariant "for every sequence of
create/update/delete operations", the mutating operations of each backend
are packaged as an inductive type of requests and folded over a start
state.  The random draw used by `BasicAuthCredentials.generate` is carried
inside each request. -/

/-- A mutating request against the in-memory collection. -/
inductive MemOp where
  | createOp (gen : BasicAuthCredentials) (details : Details)
  | updateOp (gen : BasicAuthCredentials) (user : String) (details : Details)
  | deleteOp (user : String)

/-- The generated credential pair carried by a request satisfies the spec's
contract for `BasicAuthCredentials.generate` (non-empty components that
never collide with the `:` separator). -/
def MemOp.wfGen : MemOp → Prop
  | .createOp gen _ => wfCred gen
  | .updateOp gen _ _ => wfCred gen
  | .deleteOp _ => True

/-- Apply one request to the in-memory collection state. -/
def memApply (items : List (String × String)) : MemOp → List (String × String)
  | .createOp gen details => (MemoryCredentialsCollection.create gen items details).1
  | .updateOp gen user details => (MemoryCredentialsCollection.update gen items user details).1
  | .deleteOp user => (MemoryCredentialsCollection.delete items user).1

/-- Run a sequence of requests against the in-memory collection. -/
def memRun (items : List (String × String)) (ops : List MemOp) : List (String × String) :=
  ops.foldl memApply items

/-- Two live in-memory records are compatible: different `user` keys and
different embedded usernames. -/
def memRel (a b : String × String) : Prop :=
  a.1 ≠ b.1 ∧ tokUsername a.2 ≠ tokUsername b.2

/-- The data-model invariant of the in-memory collection: distinct live
records have distinct `user` keys and distinct embedded usernames. -/
def memInv (items : List (String × String)) : Prop :=
  items.Pairwise memRel

/-- A mutating request against the database-backed collection. -/
inductive DBOp where
  | createOp (gen : BasicAuthCredentials) (details : Details)
  | updateOp (gen : BasicAuthCredentials) (user : String) (details : Details)
  | deleteOp (user : String)

/-- Apply one request to the database state. -/
def dbApply (db : List DataBaseCredentialsCollection.DBRecord) :
    DBOp → List DataBaseCredentialsCollection.DBRecord
  | .createOp gen details => (DataBaseCredentialsCollection.create gen db details).1
  | .updateOp gen user details => (DataBaseCredentialsCollection.update gen db user details).1
  | .deleteOp user => (DataBaseCredentialsCollection.delete db user).1

/-- Run a sequence of requests against the database-backed collection. -/
def dbRun (db : List DataBaseCredentialsCollection.DBRecord) (ops : List DBOp) :
    List DataBaseCredentialsCollection.DBRecord :=
  ops.foldl dbApply db

/-- Two stored database records are compatible: different `user` keys and
different usernames. -/
def dbRel (a b : DataBaseCredentialsCollection.DBRecord) : Prop :=
  a.user ≠ b.user ∧ a.username ≠ b.username

/-- The data-model invariant of the database-backed collection: distinct
live records have distinct `user` keys and distinct usernames. -/
def dbInv (db : List DataBaseCredentialsCollection.DBRecord) : Prop :=
  db.Pairwise dbRel

/-! ### Lock usage of the in-memory collection

`MemoryCredentialsCollection` owns one `asyncio.Lock`; some of its public
methods are wrapped by the `locking` decorator of `basic_auth/lock.py`.
The decorator placement is taken directly from `collection.py`; each
operation is abstracted to the sequence of lock events it produces. -/

/-- The public operations of the in-memory collection. -/
inductive MemPublicOp where
  | create
  | get
  | get_all
  | update
  | delete
  | credentials_match
  | api_credentials_match
deriving DecidableEq, Repr

/-- Events observable on the collection's exclusive lock: acquiring it,
releasing it, or running (part of) the operation body. -/
inductive LockEvent where
  | acquire
  | release
  | body
deriving DecidableEq, Repr

/-- Modelled from the spec: the `locking` decorator of `basic_auth/lock.py`
(not in src/): acquire the collection's single exclusive lock before the
wrapped body and release it afterwards on every exit path, error paths
included. -/
def locking (bodyTrace : List LockEvent) : List LockEvent :=
  LockEvent.acquire :: bodyTrace ++ [LockEvent.release]

/-- The lock-event trace of each public method, from the decorator
placement in `collection.py`: `create`, `update`, `delete`, `get` and
`credentials_match` carry `@locking`; `get_all` and
`api_credentials_match` are declared without it and run their bodies with
the lock untouched. -/
def memOpTrace : MemPublicOp → List LockEvent
  | .create => locking [.body]
  | .get => locking [.body]
  | .get_all => [.body]
  | .update => locking [.body]
  | .delete => locking [.body]
  | .credentials_match => locking [.body]
  | .api_credentials_match => [.body]

/-! ### Helper lemmas: token strings -/

theorem append_colon_data (u p : String) :
    (u ++ ":" ++ p).data = u.data ++ ':' :: p.data := by
  rw [String.data_append, String.data_append, List.append_assoc]
  rfl

theorem splitOnColon_no_colon (l : List Char) (h : ':' ∉ l) : splitOnColon l = [l] := by
  induction l with
  | nil => rfl
  | cons c rest ih =>
    have hc : c ≠ ':' := fun hh => h (hh ▸ List.mem_cons_self c rest)
    have hrest : ':' ∉ rest := fun hh => h (List.mem_cons_of_mem c hh)
    unfold splitOnColon
    rw [if_neg hc, ih hrest]

theorem splitOnColon_eq_two (u p : List Char) (hu : ':' ∉ u) (hp : ':' ∉ p) :
    splitOnColon (u ++ ':' :: p) = [u, p] := by
  induction u with
  | nil =>
    show splitOnColon (':' :: p) = [[], p]
    unfold splitOnColon
    rw [if_pos rfl, splitOnColon_no_colon p hp]
  | cons c u2 ih =>
    have hc : c ≠ ':' := fun hh => hu (hh ▸ List.mem_cons_self c u2)
    have hu2 : ':' ∉ u2 := fun hh => hu (List.mem_cons_of_mem c hh)
    show splitOnColon (c :: (u2 ++ ':' :: p)) = [c :: u2, p]
    unfold splitOnColon
    rw [if_neg hc, ih hu2]

theorem token_decomp (l1 r1 l2 r2 : List Char) (h1 : ':' ∉ l1) (h2 : ':' ∉ l2)
    (heq : l1 ++ ':' :: r1 = l2 ++ ':' :: r2) : l1 = l2 ∧ r1 = r2 := by
  induction l1 generalizing l2 with
  | nil =>
    cases l2 with
    | nil => simpa using heq
    | cons d l2t =>
      exfalso
      have hd : ':' = d := (List.cons.injEq _ _ _ _ ▸ heq).1
      exact h2 (hd ▸ List.mem_cons_self d l2t)
  | cons c l1t ih =>
    cases l2 with
    | nil =>
      exfalso
      have hc : c = ':' := (List.cons.injEq _ _ _ _ ▸ heq).1
      exact h1 (hc ▸ List.mem_cons_self c l1t)
    | cons d l2t =>
      have hc : c = d := (List.cons.injEq _ _ _ _ ▸ heq).1
      have htl : l1t ++ ':' :: r1 = l2t ++ ':' :: r2 := (List.cons.injEq _ _ _ _ ▸ heq).2
      have h1t : ':' ∉ l1t := fun hh => h1 (List.mem_cons_of_mem c hh)
      have h2t : ':' ∉ l2t := fun hh => h2 (List.mem_cons_of_mem d hh)
      rcases ih l2t h1t h2t htl with ⟨hl, hr⟩
      exact ⟨by rw [hc, hl], hr⟩

theorem colon_free_of_token_eq (l1 r1 l2 r2 : List Char)
    (h1 : ':' ∉ l1) (hr1 : ':' ∉ r1)
    (heq : l1 ++ ':' :: r1 = l2 ++ ':' :: r2) : ':' ∉ l2 := by
  induction l1 generalizing l2 with
  | nil =>
    cases l2 with
    | nil => simp
    | cons d l2t =>
      exfalso
      have htl : r1 = l2t ++ ':' :: r2 := (List.cons.injEq _ _ _ _ ▸ heq).2
      exact hr1 (htl ▸ List.mem_append_right l2t (List.mem_cons_self ':' r2))
  | cons c l1t ih =>
    cases l2 with
    | nil => simp
    | cons d l2t =>
      have hc : c = d := (List.cons.injEq _ _ _ _ ▸ heq).1
      have htl : l1t ++ ':' :: r1 = l2t ++ ':' :: r2 := (List.cons.injEq _ _ _ _ ▸ heq).2
      have h1t : ':' ∉ l1t := fun hh => h1 (List.mem_cons_of_mem c hh)
      have hl2t : ':' ∉ l2t := ih l2t h1t htl
      intro hmem
      rcases List.mem_cons.mp hmem with hh | hh
      · exact h1 (hh ▸ hc ▸ List.mem_cons_self c l1t)
      · exact hl2t hh

theorem prepBody_two (u p : String) (hu1 : u.data ≠ []) (hu2 : ':' ∉ u.data)
    (hp1 : p.data ≠ []) (hp2 : ':' ∉ p.data) :
    prepBody (u ++ ":" ++ p) = u ++ ":" ++ hash_token256 p := by
  unfold prepBody
  rw [append_colon_data, splitOnColon_eq_two u.data p.data hu2 hp2]
  show (if u.data ≠ [] ∧ p.data ≠ [] then
          String.mk u.data ++ ":" ++ hash_token256 (String.mk p.data)
        else u ++ ":" ++ p) = u ++ ":" ++ hash_token256 p
  rw [if_pos ⟨hu1, hp1⟩]

theorem prepBody_passthrough (t : String)
    (h : (splitOnColon t.data).length ≠ 2 ∨ [] ∈ splitOnColon t.data) :
    prepBody t = t := by
  unfold prepBody
  rcases hsp : splitOnColon t.data with _ | ⟨a, _ | ⟨b, _ | ⟨c, rest⟩⟩⟩
  · rfl
  · rfl
  · rw [hsp] at h
    show (if a ≠ [] ∧ b ≠ [] then String.mk a ++ ":" ++ hash_token256 (String.mk b) else t) = t
    rcases h with h2 | h2
    · exact absurd rfl h2
    · rcases List.mem_cons.mp h2 with hh | hh
      · rw [if_neg (fun hand => hand.1 hh.symm)]
      · rcases List.mem_cons.mp hh with hh2 | hh2
        · rw [if_neg (fun hand => hand.2 hh2.symm)]
        · exact absurd hh2 (List.not_mem_nil [])
  · rfl

theorem prep_token_two (u p : String) (hu1 : u.data ≠ []) (hu2 : ':' ∉ u.data)
    (hp1 : p.data ≠ []) (hp2 : ':' ∉ p.data) :
    _prep_token (some (u ++ ":" ++ p)) = some (u ++ ":" ++ hash_token256 p) := by
  show some (prepBody (u ++ ":" ++ p)) = _
  rw [prepBody_two u p hu1 hu2 hp1 hp2]

theorem from_token_append (u p : String) (hu1 : u.data ≠ []) (hu2 : ':' ∉ u.data)
    (hp1 : p.data ≠ []) :
    BasicAuthCredentials.from_token (u ++ ":" ++ p) = some ⟨u, p⟩ := by
  have hsp : splitFirstColon (u ++ ":" ++ p).data = some (u.data, p.data) :=
    (splitFirstColon_eq_some _ _ _).mpr ⟨hu2, append_colon_data u p⟩
  rw [from_token_eq_of_split _ _ _ hsp, if_neg (by simp [hu1, hp1])]

theorem getAuth_wfCred (gen : BasicAuthCredentials) (tok : Option String)
    (a : BasicAuthCredentials) (hgen : wfCred gen) (h : _get_auth gen tok = some a) :
    wfCred a := by
  cases tok with
  | none =>
    have hga : gen = a := Option.some.inj h
    exact hga ▸ hgen
  | some t =>
    have h2 : (if t ≠ "" then BasicAuthCredentials.from_token t else some gen) = some a := h
    by_cases ht : t ≠ ""
    · rw [if_pos ht] at h2
      exact from_token_wfCred t a h2
    · rw [if_neg ht] at h2
      have hga : gen = a := Option.some.inj h2
      exact hga ▸ hgen

/-! ### Helper lemmas: the in-memory collection -/

namespace MemoryCredentialsCollection

theorem lookupUser_eq_none (items : List (String × String)) (user : String) :
    lookupUser items user = none ↔ ∀ e ∈ items, e.1 ≠ user := by
  induction items with
  | nil => simp [lookupUser]
  | cons e rest ih =>
    obtain ⟨u, t⟩ := e
    unfold lookupUser
    by_cases hu : u = user
    · simp [hu]
    · rw [if_neg hu]
      simp only [List.forall_mem_cons]
      rw [ih]
      simp [hu]

theorem lookupUser_append_self (items : List (String × String)) (user t : String)
    (h : lookupUser items user = none) :
    lookupUser (items ++ [(user, t)]) user = some t := by
  induction items with
  | nil => simp [lookupUser]
  | cons e rest ih =>
    obtain ⟨u, s⟩ := e
    have hh : (if u = user then some s else lookupUser rest user) = none := h
    show (if u = user then some s else lookupUser (rest ++ [(user, t)]) user) = some t
    by_cases hu : u = user
    · rw [if_pos hu] at hh
      exact Option.noConfusion hh
    · rw [if_neg hu] at hh
      rw [if_neg hu]
      exact ih hh

theorem check_ok_iff (items : List (String × String)) (user username : String) :
    _check_duplicated_username items user username = .ok () ↔
      ∀ e ∈ items, ∃ a, BasicAuthCredentials.from_token e.2 = some a ∧
        (e.1 ≠ user → a.username ≠ username) := by
  induction items with
  | nil => simp [_check_duplicated_username]
  | cons e rest ih =>
    obtain ⟨ou, tok⟩ := e
    have hdef : _check_duplicated_username ((ou, tok) :: rest) user username =
        (match BasicAuthCredentials.from_token tok with
         | none => .error .MalformedToken
         | some auth =>
           if auth.username = username ∧ user ≠ ou then .error .InvalidResourceDetails
           else _check_duplicated_username rest user username) := rfl
    rw [hdef]
    cases hft : BasicAuthCredentials.from_token tok with
    | none =>
      constructor
      · intro h
        exact Except.noConfusion h
      · intro h
        rcases h (ou, tok) (List.mem_cons_self _ _) with ⟨a, ha, _⟩
        exact Option.noConfusion (hft ▸ ha)
    | some auth =>
      simp only []
      by_cases hcond : auth.username = username ∧ user ≠ ou
      · rw [if_pos hcond]
        constructor
        · intro h
          exact Except.noConfusion h
        · intro h
          rcases h (ou, tok) (List.mem_cons_self _ _) with ⟨a, ha, himp⟩
          have haa : auth = a := Option.some.inj (hft ▸ ha)
          exact (himp (Ne.symm hcond.2) (haa ▸ hcond.1)).elim
      · rw [if_neg hcond]
        rw [ih]
        simp only [List.forall_mem_cons]
        constructor
        · intro h
          refine ⟨⟨auth, hft, fun hou => ?_⟩, h⟩
          intro huname
          exact hcond ⟨huname, Ne.symm hou⟩
        · intro h
          exact h.2

theorem check_invalid (items : List (String × String)) (user username : String)
    (hwf : ∀ e ∈ items, (BasicAuthCredentials.from_token e.2).isSome)
    (hex : ∃ e ∈ items, e.1 ≠ user ∧ tokUsername e.2 = some username) :
    _check_duplicated_username items user username = .error .InvalidResourceDetails := by
  induction items with
  | nil => simp at hex
  | cons e rest ih =>
    obtain ⟨ou, tok⟩ := e
    have hdef : _check_duplicated_username ((ou, tok) :: rest) user username =
        (match BasicAuthCredentials.from_token tok with
         | none => .error .MalformedToken
         | some auth =>
           if auth.username = username ∧ user ≠ ou then .error .InvalidResourceDetails
           else _check_duplicated_username rest user username) := rfl
    rw [hdef]
    have hhead := hwf (ou, tok) (List.mem_cons_self _ _)
    cases hft : BasicAuthCredentials.from_token tok with
    | none => rw [hft] at hhead; exact absurd hhead (by simp)
    | some auth =>
      simp only []
      by_cases hcond : auth.username = username ∧ user ≠ ou
      · rw [if_pos hcond]
      · rw [if_neg hcond]
        apply ih
        · intro e he
          exact hwf e (List.mem_cons_of_mem _ he)
        · rcases hex with ⟨e, he, hne, huser⟩
          rcases List.mem_cons.mp he with rfl | he2
          · exfalso
            unfold tokUsername at huser
            rw [hft] at huser
            have : auth.username = username := Option.some.inj huser
            exact hcond ⟨this, Ne.symm hne⟩
          · exact ⟨e, he2, hne, huser⟩

theorem sampleCreate_cases (items : List (String × String)) (user token : String) :
    (sampleCreate items user token = (items, .error .ResourceAlreadyExists)
       ∧ (lookupUser items user).isSome = true)
    ∨ (sampleCreate items user token = (items ++ [(user, token)], .ok (user, token))
       ∧ lookupUser items user = none) := by
  unfold sampleCreate
  cases h : lookupUser items user with
  | none => right; exact ⟨rfl, rfl⟩
  | some t => left; exact ⟨rfl, by simp⟩

theorem sampleUpdate_error (items : List (String × String)) (user token : String)
    (e : CollError) (h : (sampleUpdate items user token).2 = .error e) :
    e = .ResourceNotFound ∧ (sampleUpdate items user token).1 = items := by
  induction items with
  | nil =>
    refine ⟨?_, rfl⟩
    have h2 : (Except.error CollError.ResourceNotFound :
        Except CollError (String × String)) = .error e := h
    exact (Except.error.inj h2).symm
  | cons p rest ih =>
    obtain ⟨u, t⟩ := p
    simp only [sampleUpdate] at h ⊢
    by_cases hu : u = user
    · rw [if_pos hu] at h
      exact Except.noConfusion h
    · rw [if_neg hu] at h ⊢
      rcases ih h with ⟨he, hst⟩
      exact ⟨he, by rw [hst]⟩

theorem mem_sampleUpdate (items : List (String × String)) (user token : String)
    (e : String × String) (h : e ∈ (sampleUpdate items user token).1) :
    e ∈ items ∨ e = (user, token) := by
  induction items with
  | nil => simp [sampleUpdate] at h
  | cons p rest ih =>
    obtain ⟨u, t⟩ := p
    simp only [sampleUpdate] at h
    by_cases hu : u = user
    · rw [if_pos hu] at h
      rcases List.mem_cons.mp h with rfl | h2
      · right; rw [hu]
      · left; exact List.mem_cons_of_mem _ h2
    · rw [if_neg hu] at h
      rcases List.mem_cons.mp h with rfl | h2
      · left; exact List.mem_cons_self _ _
      · rcases ih h2 with h3 | h3
        · left; exact List.mem_cons_of_mem _ h3
        · right; exact h3

theorem memInv_sampleUpdate (items : List (String × String)) (user token : String)
    (hinv : memInv items)
    (husers : ∀ e ∈ items, e.1 ≠ user → tokUsername e.2 ≠ tokUsername token) :
    memInv (sampleUpdate items user token).1 := by
  induction items with
  | nil => exact List.Pairwise.nil
  | cons p rest ih =>
    obtain ⟨u, t⟩ := p
    have hinv2 : (∀ b ∈ rest, memRel (u, t) b) ∧ rest.Pairwise memRel :=
      List.pairwise_cons.mp hinv
    obtain ⟨hhead, htail⟩ := hinv2
    simp only [sampleUpdate]
    by_cases hu : u = user
    · rw [if_pos hu]
      refine List.pairwise_cons.mpr ⟨?_, htail⟩
      intro b hb
      refine ⟨(hhead b hb).1, ?_⟩
      have hbne : b.1 ≠ user := by
        intro hbu
        exact (hhead b hb).1 (by rw [hu, hbu])
      exact Ne.symm (husers b (List.mem_cons_of_mem _ hb) hbne)
    · rw [if_neg hu]
      refine List.pairwise_cons.mpr ⟨?_, ?_⟩
      · intro b hb
        rcases mem_sampleUpdate rest user token b hb with hbmem | rfl
        · exact hhead b hbmem
        · exact ⟨hu, husers (u, t) (List.mem_cons_self _ _) hu⟩
      · exact ih htail (fun e he hne => husers e (List.mem_cons_of_mem _ he) hne)

theorem sampleDelete_sublist (items : List (String × String)) (user : String) :
    List.Sublist (sampleDelete items user).1 items := by
  induction items with
  | nil => exact List.Sublist.refl []
  | cons p rest ih =>
    obtain ⟨u, t⟩ := p
    simp only [sampleDelete]
    by_cases hu : u = user
    · rw [if_pos hu]
      exact (List.Sublist.refl rest).cons _
    · rw [if_neg hu]
      exact ih.cons₂ _

theorem memInv_create (gen : BasicAuthCredentials) (items : List (String × String))
    (details : Details) (hgen : wfCred gen) (hinv : memInv items) :
    memInv (create gen items details).1 := by
  unfold create
  cases hga : _get_auth gen (_prep_token details.token) with
  | none => exact hinv
  | some auth =>
    simp only []
    cases hchk : _check_duplicated_username items details.user auth.username with
    | error e => exact hinv
    | ok r =>
      rcases sampleCreate_cases items details.user auth.toToken with ⟨heq, _⟩ | ⟨heq, hnone⟩
      · rw [heq]; exact hinv
      · rw [heq]
        show memInv (items ++ [(details.user, auth.toToken)])
        have hkeys := (lookupUser_eq_none items details.user).mp hnone
        have hchk2 := (check_ok_iff items details.user auth.username).mp hchk
        have hwfa : wfCred auth := getAuth_wfCred gen _ auth hgen hga
        refine List.pairwise_append.mpr ⟨hinv, List.pairwise_singleton _ _, ?_⟩
        intro e he b hb
        have hbb : b = (details.user, auth.toToken) := List.mem_singleton.mp hb
        subst hbb
        refine ⟨hkeys e he, ?_⟩
        rcases hchk2 e he with ⟨a, ha, himp⟩
        have hune : a.username ≠ auth.username := himp (hkeys e he)
        show tokUsername e.2 ≠ tokUsername auth.toToken
        unfold tokUsername
        rw [ha, from_token_toToken auth hwfa]
        intro hsome
        exact hune (Option.some.inj hsome)

theorem memInv_update (gen : BasicAuthCredentials) (items : List (String × String))
    (user : String) (details : Details) (hgen : wfCred gen) (hinv : memInv items) :
    memInv (update gen items user details).1 := by
  unfold update
  cases hga : _get_auth gen (_prep_token details.token) with
  | none => exact hinv
  | some auth =>
    simp only []
    cases hchk : _check_duplicated_username items user auth.username with
    | error e => exact hinv
    | ok r =>
      have hchk2 := (check_ok_iff items user auth.username).mp hchk
      have hwfa : wfCred auth := getAuth_wfCred gen _ auth hgen hga
      apply memInv_sampleUpdate items user auth.toToken hinv
      intro e he hne
      rcases hchk2 e he with ⟨a, ha, himp⟩
      have hune : a.username ≠ auth.username := himp hne
      unfold tokUsername
      rw [ha, from_token_toToken auth hwfa]
      intro hsome
      exact hune (Option.some.inj hsome)

theorem memInv_delete (items : List (String × String)) (user : String)
    (hinv : memInv items) : memInv (delete items user).1 :=
  List.Pairwise.sublist (sampleDelete_sublist items user) hinv

end MemoryCredentialsCollection

/-- One request preserves the in-memory uniqueness invariant. -/
theorem memInv_memApply (items : List (String × String)) (op : MemOp)
    (hg : op.wfGen) (hinv : memInv items) : memInv (memApply items op) := by
  cases op with
  | createOp gen details => exact MemoryCredentialsCollection.memInv_create gen items details hg hinv
  | updateOp gen user details =>
    exact MemoryCredentialsCollection.memInv_update gen items user details hg hinv
  | deleteOp user => exact MemoryCredentialsCollection.memInv_delete items user hinv

/-- A whole request sequence preserves the in-memory uniqueness invariant. -/
theorem memInv_memRun (items : List (String × String)) (ops : List MemOp)
    (hg : ∀ op ∈ ops, op.wfGen) (hinv : memInv items) : memInv (memRun items ops) := by
  induction ops generalizing items with
  | nil => exact hinv
  | cons op rest ih =>
    exact ih (memApply items op) (fun o ho => hg o (List.mem_cons_of_mem _ ho))
      (memInv_memApply items op (hg op (List.mem_cons_self _ _)) hinv)

/-! ### Helper lemmas: the database-backed collection -/

namespace DataBaseCredentialsCollection

theorem is_known_user_eq_false (db : List DBRecord) (user : String) :
    is_known_user db user = false ↔ ∀ r ∈ db, r.user ≠ user := by
  unfold is_known_user
  simp

theorem is_known_user_eq_true (db : List DBRecord) (user : String) :
    is_known_user db user = true ↔ ∃ r ∈ db, r.user = user := by
  unfold is_known_user
  simp

theorem get_by_username_eq_none (db : List DBRecord) (username : String) :
    get_credentials_by_username db username = none ↔ ∀ r ∈ db, r.username ≠ username := by
  unfold get_credentials_by_username
  rw [List.find?_eq_none]
  simp

theorem get_by_username_some_username (db : List DBRecord) (username : String)
    (c : DBRecord) (h : get_credentials_by_username db username = some c) :
    c.username = username := by
  have := List.find?_some h
  simpa using this

theorem get_by_username_some_mem (db : List DBRecord) (username : String)
    (c : DBRecord) (h : get_credentials_by_username db username = some c) :
    c ∈ db :=
  List.mem_of_find?_eq_some h

theorem check_cons_eq (db : List DBRecord) (user username : String) :
    _check_duplicated_username db user username =
      match get_credentials_by_username db username with
      | none => .ok ()
      | some credentials =>
        if credentials.user ≠ user then .error .InvalidResourceDetails else .ok () := rfl

theorem db_check_ok_of_unknown (db : List DBRecord) (user username : String)
    (hunk : is_known_user db user = false)
    (hchk : _check_duplicated_username db user username = .ok ()) :
    ∀ r ∈ db, r.username ≠ username := by
  cases hf : get_credentials_by_username db username with
  | none => exact (get_by_username_eq_none db username).mp hf
  | some c =>
    rw [check_cons_eq, hf] at hchk
    simp only [] at hchk
    by_cases hcu : c.user ≠ user
    · rw [if_pos hcu] at hchk
      exact Except.noConfusion hchk
    · push_neg at hcu
      have hcmem := get_by_username_some_mem db username c hf
      exact absurd hcu ((is_known_user_eq_false db user).mp hunk c hcmem)

theorem db_check_ok_diff (db : List DBRecord) (user username : String) (hinv : dbInv db)
    (hchk : _check_duplicated_username db user username = .ok ()) :
    ∀ r ∈ db, r.user ≠ user → r.username ≠ username := by
  cases hf : get_credentials_by_username db username with
  | none =>
    intro r hr _
    exact (get_by_username_eq_none db username).mp hf r hr
  | some c =>
    rw [check_cons_eq, hf] at hchk
    simp only [] at hchk
    by_cases hcu : c.user ≠ user
    · rw [if_pos hcu] at hchk
      exact Except.noConfusion hchk
    · push_neg at hcu
      intro r hr hru hrname
      have hcmem := get_by_username_some_mem db username c hf
      have hcname := get_by_username_some_username db username c hf
      have hrc : r ≠ c := fun hh => hru (hh ▸ hcu)
      have hsymm : Symmetric dbRel := by
        intro a b hab
        exact ⟨Ne.symm hab.1, Ne.symm hab.2⟩
      have hrel : dbRel r c := List.Pairwise.forall hsymm hinv hr hcmem hrc
      exact hrel.2 (by rw [hrname, hcname])

theorem dbInv_update_cred (db : List DBRecord) (user username password : String)
    (hinv : dbInv db)
    (h : ∀ r ∈ db, r.user ≠ user → r.username ≠ username) :
    dbInv (update_credentials db user username password) := by
  unfold update_credentials
  show List.Pairwise dbRel (List.map _ db)
  rw [List.pairwise_map]
  refine List.Pairwise.imp_of_mem ?_ hinv
  intro a b ha hb hab
  by_cases hau : a.user = user
  · have hbu : b.user ≠ user := fun hh => hab.1 (by rw [hau, hh])
    rw [if_pos hau, if_neg hbu]
    exact ⟨Ne.symm hbu, Ne.symm (h b hb hbu)⟩
  · rw [if_neg hau]
    by_cases hbu : b.user = user
    · rw [if_pos hbu]
      exact ⟨hau, h a ha hau⟩
    · rw [if_neg hbu]
      exact hab

theorem dbInv_create (gen : BasicAuthCredentials) (db : List DBRecord) (details : Details)
    (hinv : dbInv db) : dbInv (create gen db details).1 := by
  unfold create
  by_cases hk : is_known_user db details.user
  · rw [if_pos hk]
    exact hinv
  · rw [if_neg hk]
    cases hga : _get_auth gen details.token with
    | none => exact hinv
    | some auth =>
      simp only []
      cases hchk : _check_duplicated_username db details.user auth.username with
      | error e => exact hinv
      | ok r =>
        show dbInv (add_credentials db details.user auth.username auth.password)
        unfold add_credentials
        have hk2 : is_known_user db details.user = false := by
          simpa using hk
        have husers := (is_known_user_eq_false db details.user).mp hk2
        have hnames := db_check_ok_of_unknown db details.user auth.username hk2 hchk
        refine List.pairwise_append.mpr ⟨hinv, List.pairwise_singleton _ _, ?_⟩
        intro a ha b hb
        have hbb := List.mem_singleton.mp hb
        subst hbb
        exact ⟨husers a ha, hnames a ha⟩

theorem dbInv_update (gen : BasicAuthCredentials) (db : List DBRecord)
    (user : String) (details : Details) (hinv : dbInv db) :
    dbInv (update gen db user details).1 := by
  unfold update
  by_cases hk : is_known_user db user
  · rw [if_pos hk]
    cases hga : _get_auth gen details.token with
    | none => exact hinv
    | some auth =>
      simp only []
      cases hchk : _check_duplicated_username db user auth.username with
      | error e => exact hinv
      | ok r =>
        show dbInv (update_credentials db user auth.username auth.password)
        exact dbInv_update_cred db user auth.username auth.password hinv
          (db_check_ok_diff db user auth.username hinv hchk)
  · rw [if_neg hk]
    exact hinv

theorem dbInv_delete (db : List DBRecord) (user : String) (hinv : dbInv db) :
    dbInv (delete db user).1 := by
  unfold delete
  simp only [remove_credentials]
  by_cases hk : is_known_user db user
  · rw [if_pos hk]
    exact List.Pairwise.sublist (List.filter_sublist db) hinv
  · rw [if_neg hk]
    exact hinv

end DataBaseCredentialsCollection

/-- One request preserves the database uniqueness invariant. -/
theorem dbInv_dbApply (db : List DataBaseCredentialsCollection.DBRecord) (op : DBOp)
    (hinv : dbInv db) : dbInv (dbApply db op) := by
  cases op with
  | createOp gen details => exact DataBaseCredentialsCollection.dbInv_create gen db details hinv
  | updateOp gen user details =>
    exact DataBaseCredentialsCollection.dbInv_update gen db user details hinv
  | deleteOp user => exact DataBaseCredentialsCollection.dbInv_delete db user hinv

/-- A whole request sequence preserves the database uniqueness invariant. -/
theorem dbInv_dbRun (db : List DataBaseCredentialsCollection.DBRecord) (ops : List DBOp)
    (hinv : dbInv db) : dbInv (dbRun db ops) := by
  induction ops generalizing db with
  | nil => exact hinv
  | cons op rest ih => exact ih (dbApply db op) (dbInv_dbApply db op hinv)

/-! ### Helper lemmas: password verification -/

/-- Well-formedness of an in-memory collection state: every stored token is
the serialized form of a well-formed credential pair whose password
component is free of the `:` separator (as produced by storing
`username:hash` tokens). -/
def wfItems (items : List (String × String)) : Prop :=
  ∀ e ∈ items, ∃ a, e.2 = a.toToken ∧ wfCred a ∧ ':' ∉ a.password.data

theorem dbRel_symm : Symmetric dbRel := by
  intro a b hab
  exact ⟨Ne.symm hab.1, Ne.symm hab.2⟩

theorem toToken_eq_query_iff (a : BasicAuthCredentials) (ha : wfCred a)
    (hpcf : ':' ∉ a.password.data) (username h : String) :
    a.toToken = username ++ ":" ++ h ↔ (a.username = username ∧ a.password = h) := by
  constructor
  · intro heq
    have hdata : a.username.data ++ ':' :: a.password.data = username.data ++ ':' :: h.data := by
      rw [← toToken_data, heq, append_colon_data]
    have hucf : ':' ∉ username.data :=
      colon_free_of_token_eq a.username.data a.password.data username.data h.data
        ha.2.1 hpcf hdata
    rcases token_decomp _ _ _ _ ha.2.1 hucf hdata with ⟨h1, h2⟩
    constructor
    · exact congrArg String.mk h1
    · exact congrArg String.mk h2
  · rintro ⟨h1, h2⟩
    unfold BasicAuthCredentials.toToken
    rw [h1, h2]

theorem mem_credentials_match_iff (items : List (String × String))
    (username password : String) (hwf : wfItems items) :
    MemoryCredentialsCollection.credentials_match items username password = true ↔
      ∃ e ∈ items, tokUsername e.2 = some username
        ∧ tokPassword e.2 = some (hash_token256 password) := by
  unfold MemoryCredentialsCollection.credentials_match
  rw [decide_eq_true_eq]
  constructor
  · intro hmem
    rcases List.mem_map.mp hmem with ⟨e, he, heq⟩
    rcases hwf e he with ⟨a, hat, hwfa, hpcf⟩
    have htok : a.toToken = username ++ ":" ++ hash_token256 password := by
      rw [← hat, heq]
    rcases (toToken_eq_query_iff a hwfa hpcf username _).mp htok with ⟨h1, h2⟩
    refine ⟨e, he, ?_, ?_⟩
    · unfold tokUsername
      rw [hat, from_token_toToken a hwfa]
      exact congrArg some h1
    · unfold tokPassword
      rw [hat, from_token_toToken a hwfa]
      exact congrArg some h2
  · rintro ⟨e, he, hu, hp⟩
    rcases hwf e he with ⟨a, hat, hwfa, hpcf⟩
    unfold tokUsername at hu
    unfold tokPassword at hp
    rw [hat, from_token_toToken a hwfa] at hu hp
    have h1 : a.username = username := Option.some.inj hu
    have h2 : a.password = hash_token256 password := Option.some.inj hp
    refine List.mem_map.mpr ⟨e, he, ?_⟩
    rw [hat]
    exact (toToken_eq_query_iff a hwfa hpcf username _).mpr ⟨h1, h2⟩

theorem db_credentials_match_iff (db : List DataBaseCredentialsCollection.DBRecord)
    (username password : String) (hinv : dbInv db) :
    DataBaseCredentialsCollection.credentials_match db username password = true ↔
      ∃ r ∈ db, r.username = username ∧ r.passwordHash = hash_token256 password := by
  unfold DataBaseCredentialsCollection.credentials_match
  cases hf : DataBaseCredentialsCollection.get_credentials_by_username db username with
  | none =>
    constructor
    · intro h
      exact Bool.noConfusion h
    · rintro ⟨r, hr, hrn, _⟩
      exact absurd hrn
        ((DataBaseCredentialsCollection.get_by_username_eq_none db username).mp hf r hr)
  | some c =>
    have hcmem := DataBaseCredentialsCollection.get_by_username_some_mem db username c hf
    have hcname := DataBaseCredentialsCollection.get_by_username_some_username db username c hf
    show c.password_match password = true ↔ _
    unfold DataBaseCredentialsCollection.DBRecord.password_match
    rw [decide_eq_true_eq]
    constructor
    · intro h
      exact ⟨c, hcmem, hcname, h.symm⟩
    · rintro ⟨r, hr, hrn, hrp⟩
      by_cases hrc : r = c
      · subst hrc
        exact hrp.symm
      · have hrel : dbRel r c := List.Pairwise.forall dbRel_symm hinv hr hcmem hrc
        exact absurd (hrn.trans hcname.symm) hrel.2

theorem append_colon_ne_empty (u p : String) : (u ++ ":" ++ p) ≠ "" := by
  intro h
  have hdata := congrArg String.data h
  rw [append_colon_data, show ("" : String).data = [] from rfl] at hdata
  simp at hdata

theorem getAuth_of_wf_token (gen : BasicAuthCredentials) (u p : String)
    (hu1 : u.data ≠ []) (hu2 : ':' ∉ u.data) (hp1 : p.data ≠ []) :
    _get_auth gen (some (u ++ ":" ++ p)) = some ⟨u, p⟩ := by
  show (if (u ++ ":" ++ p) ≠ "" then BasicAuthCredentials.from_token (u ++ ":" ++ p)
        else some gen) = some ⟨u, p⟩
  rw [if_pos (append_colon_ne_empty u p), from_token_append u p hu1 hu2 hp1]

namespace DataBaseCredentialsCollection

theorem get_by_user_append (db : List DBRecord) (user : String) (r : DBRecord)
    (hr : r.user = user) (h : ∀ x ∈ db, x.user ≠ user) :
    get_credentials_by_user (db ++ [r]) user = some r := by
  induction db with
  | nil =>
    unfold get_credentials_by_user
    simp [List.find?, hr]
  | cons x rest ih =>
    have hx : x.user ≠ user := h x (List.mem_cons_self _ _)
    show get_credentials_by_user (x :: (rest ++ [r])) user = some r
    unfold get_credentials_by_user
    rw [List.find?_cons_of_neg _ (by simp [hx])]
    exact ih (fun y hy => h y (List.mem_cons_of_mem _ hy))

end DataBaseCredentialsCollection

namespace MemoryCredentialsCollection

theorem check_cons_expand (ou tok : String) (rest : List (String × String))
    (user username : String) :
    _check_duplicated_username ((ou, tok) :: rest) user username =
      (match BasicAuthCredentials.from_token tok with
       | none => .error .MalformedToken
       | some auth =>
         if auth.username = username ∧ user ≠ ou then .error .InvalidResourceDetails
         else _check_duplicated_username rest user username) := rfl

theorem check_not_malformed (items : List (String × String)) (user username : String)
    (hwf : ∀ e ∈ items, (BasicAuthCredentials.from_token e.2).isSome = true) :
    _check_duplicated_username items user username ≠ .error .MalformedToken := by
  induction items with
  | nil => exact fun h => Except.noConfusion h
  | cons e rest ih =>
    obtain ⟨ou, tok⟩ := e
    rw [check_cons_expand]
    have hhead := hwf (ou, tok) (List.mem_cons_self _ _)
    cases hft : BasicAuthCredentials.from_token tok with
    | none => rw [hft] at hhead; exact absurd hhead (by simp)
    | some auth =>
      simp only []
      by_cases hcond : auth.username = username ∧ user ≠ ou
      · rw [if_pos hcond]
        intro h
        exact absurd (Except.error.inj h) (by decide)
      · rw [if_neg hcond]
        exact ih (fun x hx => hwf x (List.mem_cons_of_mem _ hx))

theorem sampleUpdate_ok (items : List (String × String)) (user token : String)
    (res : String × String) (h : (sampleUpdate items user token).2 = .ok res) :
    res = (user, token) := by
  induction items with
  | nil => exact absurd h (fun hh => Except.noConfusion hh)
  | cons p rest ih =>
    obtain ⟨u, t⟩ := p
    simp only [sampleUpdate] at h
    by_cases hu : u = user
    · rw [if_pos hu] at h
      exact (Except.ok.inj h).symm
    · rw [if_neg hu] at h
      exact ih h

end MemoryCredentialsCollection

namespace DataBaseCredentialsCollection

theorem db_check_not_malformed (db : List DBRecord) (user username : String) :
    _check_duplicated_username db user username ≠ .error .MalformedToken := by
  rw [check_cons_eq]
  cases get_credentials_by_username db username with
  | none => exact fun h => Except.noConfusion h
  | some c =>
    simp only []
    by_cases hcu : c.user ≠ user
    · rw [if_pos hcu]
      intro h
      exact absurd (Except.error.inj h) (by decide)
    · rw [if_neg hcu]
      exact fun h => Except.noConfusion h

end DataBaseCredentialsCollection

/-! ### Claim C1 -/

/-- **C1, counterexample.**  The claim says *any* create or update whose
token's username equals the username embedded in a different user's stored
record raises `InvalidDetails`.  In the database backend the
`is_known_user` check runs first: creating for the already-known user
`bob` with a token whose username `alice_login` is owned by the different
user `alice` raises `ResourceAlreadyExists`, not
`InvalidResourceDetails` (the state is still unchanged). -/
theorem C1_counterexample :
    (∃ auth, _get_auth ⟨"g", "g"⟩ (some "alice_login:x") = some auth
        ∧ auth.username = "alice_login")
    ∧ "bob" ≠ "alice"
    ∧ DataBaseCredentialsCollection.create ⟨"g", "g"⟩
        [⟨"alice", "alice_login", "h1"⟩, ⟨"bob", "bob_login", "h2"⟩]
        ⟨"bob", some "alice_login:x"⟩
      = ([⟨"alice", "alice_login", "h1"⟩, ⟨"bob", "bob_login", "h2"⟩],
         .error .ResourceAlreadyExists)
    ∧ (CollError.ResourceAlreadyExists ≠ CollError.InvalidResourceDetails) := by
  refine ⟨⟨⟨"alice_login", "x"⟩, by rfl, rfl⟩, by decide, by rfl, by decide⟩

/-- **C1, amended.**  Username uniqueness: starting from the empty state,
after any sequence of create/update/delete requests (whose generated
credential pairs satisfy the generator contract), no two live records with
distinct user keys share a username — in either backend.  Moreover any
create or update whose token's username is already embedded in a
*different* user's record fails with `InvalidResourceDetails` and leaves
the state unchanged, *except* that in the database backend the user-key
existence check runs first (`AlreadyExists` for create on a known user,
`NotFound` for update on an unknown user, as the counterexample shows), so
its `InvalidResourceDetails` outcome is stated under that check passing. -/
theorem C1_username_uniqueness :
    (∀ ops : List MemOp, (∀ op ∈ ops, op.wfGen) → memInv (memRun [] ops))
    ∧ (∀ ops : List DBOp, dbInv (dbRun [] ops))
    ∧ (∀ gen items (details : Details) auth,
        _get_auth gen (_prep_token details.token) = some auth →
        (∀ e ∈ items, (BasicAuthCredentials.from_token e.2).isSome = true) →
        (∃ e ∈ items, e.1 ≠ details.user ∧ tokUsername e.2 = some auth.username) →
        MemoryCredentialsCollection.create gen items details
          = (items, .error .InvalidResourceDetails))
    ∧ (∀ gen items user (details : Details) auth,
        _get_auth gen (_prep_token details.token) = some auth →
        (∀ e ∈ items, (BasicAuthCredentials.from_token e.2).isSome = true) →
        (∃ e ∈ items, e.1 ≠ user ∧ tokUsername e.2 = some auth.username) →
        MemoryCredentialsCollection.update gen items user details
          = (items, .error .InvalidResourceDetails))
    ∧ (∀ gen db (details : Details) auth,
        DataBaseCredentialsCollection.is_known_user db details.user = false →
        _get_auth gen details.token = some auth →
        (∃ c, DataBaseCredentialsCollection.get_credentials_by_username db auth.username
            = some c ∧ c.user ≠ details.user) →
        DataBaseCredentialsCollection.create gen db details
          = (db, .error .InvalidResourceDetails))
    ∧ (∀ gen db user (details : Details) auth,
        DataBaseCredentialsCollection.is_known_user db user = true →
        _get_auth gen details.token = some auth →
        (∃ c, DataBaseCredentialsCollection.get_credentials_by_username db auth.username
            = some c ∧ c.user ≠ user) →
        DataBaseCredentialsCollection.update gen db user details
          = (db, .error .InvalidResourceDetails)) := by
  refine ⟨?_, ?_, ?_, ?_, ?_, ?_⟩
  · intro ops hg
    exact memInv_memRun [] ops hg List.Pairwise.nil
  · intro ops
    exact dbInv_dbRun [] ops List.Pairwise.nil
  · intro gen items details auth hga hwf hex
    unfold MemoryCredentialsCollection.create
    rw [hga]
    simp only []
    rw [MemoryCredentialsCollection.check_invalid items details.user auth.username
      hwf hex]
  · intro gen items user details auth hga hwf hex
    unfold MemoryCredentialsCollection.update
    rw [hga]
    simp only []
    rw [MemoryCredentialsCollection.check_invalid items user auth.username hwf hex]
  · intro gen db details auth hk hga hex
    obtain ⟨c, hc, hcu⟩ := hex
    unfold DataBaseCredentialsCollection.create
    rw [if_neg (by simp [hk]), hga]
    simp only []
    have hchk : DataBaseCredentialsCollection._check_duplicated_username db
        details.user auth.username = .error .InvalidResourceDetails := by
      rw [DataBaseCredentialsCollection.check_cons_eq, hc]
      simp only []
      rw [if_pos hcu]
    rw [hchk]
  · intro gen db user details auth hk hga hex
    obtain ⟨c, hc, hcu⟩ := hex
    unfold DataBaseCredentialsCollection.update
    rw [if_pos hk, hga]
    simp only []
    have hchk : DataBaseCredentialsCollection._check_duplicated_username db
        user auth.username = .error .InvalidResourceDetails := by
      rw [DataBaseCredentialsCollection.check_cons_eq, hc]
      simp only []
      rw [if_pos hcu]
    rw [hchk]

/-- **C1, witness**: the invariant after a one-create sequence from the
empty state in both backends, and the four collision conclusions at
concrete colliding inputs. -/
theorem C1_witness :
    memInv (memRun [] [MemOp.createOp ⟨"a", "p"⟩ ⟨"alice", none⟩])
    ∧ dbInv (dbRun [] [DBOp.createOp ⟨"a", "p"⟩ ⟨"alice", none⟩])
    ∧ MemoryCredentialsCollection.create ⟨"g", "g"⟩ [("alice", "a:h")]
        ⟨"bob", some "a:p"⟩ = ([("alice", "a:h")], .error .InvalidResourceDetails)
    ∧ MemoryCredentialsCollection.update ⟨"g", "g"⟩ [("alice", "a:h")] "bob"
        ⟨"bob", some "a:p"⟩ = ([("alice", "a:h")], .error .InvalidResourceDetails)
    ∧ DataBaseCredentialsCollection.create ⟨"g", "g"⟩ [⟨"alice", "a", "h1"⟩]
        ⟨"bob", some "a:p"⟩ = ([⟨"alice", "a", "h1"⟩], .error .InvalidResourceDetails)
    ∧ DataBaseCredentialsCollection.update ⟨"g", "g"⟩
        [⟨"alice", "a", "h1"⟩, ⟨"bob", "b", "h2"⟩] "bob" ⟨"bob", some "a:p"⟩
      = ([⟨"alice", "a", "h1"⟩, ⟨"bob", "b", "h2"⟩], .error .InvalidResourceDetails) := by
  obtain ⟨h1, h2, h3, h4, h5, h6⟩ := C1_username_uniqueness
  have hsing : ∀ e ∈ [("alice", "a:h")],
      (BasicAuthCredentials.from_token e.2).isSome = true := by
    intro e he
    rw [List.mem_singleton] at he
    subst he
    rfl
  refine ⟨?_, ?_, ?_, ?_, ?_, ?_⟩
  · refine h1 [MemOp.createOp ⟨"a", "p"⟩ ⟨"alice", none⟩] ?_
    intro op hop
    rw [List.mem_singleton] at hop
    subst hop
    show wfCred ⟨"a", "p"⟩
    decide
  · exact h2 [DBOp.createOp ⟨"a", "p"⟩ ⟨"alice", none⟩]
  · exact h3 ⟨"g", "g"⟩ [("alice", "a:h")] ⟨"bob", some "a:p"⟩ ⟨"a", "hp"⟩ (by rfl) hsing
      ⟨("alice", "a:h"), List.mem_singleton.mpr rfl, by decide, by decide⟩
  · exact h4 ⟨"g", "g"⟩ [("alice", "a:h")] "bob" ⟨"bob", some "a:p"⟩ ⟨"a", "hp"⟩
      (by rfl) hsing ⟨("alice", "a:h"), List.mem_singleton.mpr rfl, by decide, by decide⟩
  · exact h5 ⟨"g", "g"⟩ [⟨"alice", "a", "h1"⟩] ⟨"bob", some "a:p"⟩ ⟨"a", "p"⟩
      (by rfl) (by rfl) ⟨⟨"alice", "a", "h1"⟩, by rfl, by decide⟩
  · exact h6 ⟨"g", "g"⟩ [⟨"alice", "a", "h1"⟩, ⟨"bob", "b", "h2"⟩] "bob"
      ⟨"bob", some "a:p"⟩ ⟨"a", "p"⟩ (by rfl) (by rfl)
      ⟨⟨"alice", "a", "h1"⟩, by rfl, by decide⟩

/-! ### Claim C2 -/

/-- **C2.**  On a well-formed state, `credentials_match username password`
returns `true` exactly when some live record embeds exactly that username
together with the hash of the password; in every other case — in
particular when no record with that username exists — it returns `false`
(both embeddings are total `Bool`-valued functions: there is no raising
exit path).  For the in-memory backend well-formedness means every stored
token serializes a well-formed credential pair; for the database backend
it is the username-uniqueness invariant, under which the found-first
record is the only candidate. -/
theorem C2_credentials_match_iff (items : List (String × String))
    (db : List DataBaseCredentialsCollection.DBRecord)
    (username password : String) (hwf : wfItems items) (hinv : dbInv db) :
    (MemoryCredentialsCollection.credentials_match items username password = true ↔
      ∃ e ∈ items, tokUsername e.2 = some username
        ∧ tokPassword e.2 = some (hash_token256 password))
    ∧ (DataBaseCredentialsCollection.credentials_match db username password = true ↔
      ∃ r ∈ db, r.username = username ∧ r.passwordHash = hash_token256 password) :=
  ⟨mem_credentials_match_iff items username password hwf,
   db_credentials_match_iff db username password hinv⟩

/-- **C2, witness**: a store where `alice` holds the token
`a:hsecret` (`hsecret` is the model hash of `secret`); matching `a` with
`secret` returns `true` in both backends. -/
theorem C2_witness :
    MemoryCredentialsCollection.credentials_match [("alice", "a:hsecret")] "a" "secret" = true
    ∧ DataBaseCredentialsCollection.credentials_match
        [⟨"alice", "a", "hsecret"⟩] "a" "secret" = true := by
  have hwf : wfItems [("alice", "a:hsecret")] := by
    intro e he
    rw [List.mem_singleton] at he
    subst he
    exact ⟨⟨"a", "hsecret"⟩, by decide, by decide, by decide⟩
  have hinv : dbInv [⟨"alice", "a", "hsecret"⟩] := List.pairwise_singleton _ _
  have h := C2_credentials_match_iff [("alice", "a:hsecret")]
    [⟨"alice", "a", "hsecret"⟩] "a" "secret" hwf hinv
  constructor
  · exact h.1.mpr ⟨("alice", "a:hsecret"), List.mem_singleton.mpr rfl, by decide, by decide⟩
  · exact h.2.mpr ⟨⟨"alice", "a", "hsecret"⟩, List.mem_singleton.mpr rfl, rfl, by decide⟩

/-! ### Claim C3 -/

/-- **C3, counterexample.**  The claim says that applying `_prep_token` to
an already-prepared token returns it unchanged ("the stored form
`username:hash` is a fixed point and is never double-hashed").  On the
code this is false: `_prep_token` re-hashes any token with two non-empty
parts, so preparing `a:b` twice gives `a:` followed by the double hash,
not the once-prepared token. -/
theorem C3_counterexample :
    _prep_token (_prep_token (some "a:b")) ≠ _prep_token (some "a:b") := by decide

/-- **C3, amended.**  For a raw token `username:plaintext` with non-empty,
colon-free parts, one application of `_prep_token` yields
`username:hash(plaintext)`; a second application hashes the stored hash
again, yielding `username:hash(hash(plaintext))`, which differs from the
result of a single application: the prepared form is not a fixed point of
`_prep_token`. -/
theorem C3_prep_token_rehashes (u p : String)
    (hu1 : u.data ≠ []) (hu2 : ':' ∉ u.data) (hp1 : p.data ≠ []) (hp2 : ':' ∉ p.data) :
    _prep_token (some (u ++ ":" ++ p)) = some (u ++ ":" ++ hash_token256 p)
    ∧ _prep_token (_prep_token (some (u ++ ":" ++ p)))
        = some (u ++ ":" ++ hash_token256 (hash_token256 p))
    ∧ _prep_token (_prep_token (some (u ++ ":" ++ p)))
        ≠ _prep_token (some (u ++ ":" ++ p)) := by
  have h1 := prep_token_two u p hu1 hu2 hp1 hp2
  have h2 : _prep_token (some (u ++ ":" ++ hash_token256 p))
      = some (u ++ ":" ++ hash_token256 (hash_token256 p)) :=
    prep_token_two u (hash_token256 p) hu1 hu2
      (hash_token256_data_ne_nil p) (colon_not_mem_hash p)
  refine ⟨h1, by rw [h1, h2], ?_⟩
  rw [h1, h2]
  intro heq
  have hs : u ++ ":" ++ hash_token256 (hash_token256 p) = u ++ ":" ++ hash_token256 p :=
    Option.some.inj heq
  have hdata := congrArg String.data hs
  rw [append_colon_data, append_colon_data] at hdata
  have htl := (token_decomp _ _ _ _ hu2 hu2 hdata).2
  exact hash_token256_ne_self (hash_token256 p) (congrArg String.mk htl)

/-- **C3, witness** for the amended statement at `u = "a"`, `p = "b"`. -/
theorem C3_witness :
    _prep_token (some ("a" ++ ":" ++ "b")) = some ("a" ++ ":" ++ hash_token256 "b")
    ∧ _prep_token (_prep_token (some ("a" ++ ":" ++ "b")))
        = some ("a" ++ ":" ++ hash_token256 (hash_token256 "b"))
    ∧ _prep_token (_prep_token (some ("a" ++ ":" ++ "b")))
        ≠ _prep_token (some ("a" ++ ":" ++ "b")) :=
  C3_prep_token_rehashes "a" "b" (by decide) (by decide) (by decide) (by decide)

/-! ### Claim C4 -/

/-- **C4.**  For a submitted token `u:p` with non-empty colon-free parts,
a successful `create` followed by `get` for the same user returns, in both
backends, a token whose first component is the submitted username `u` and
whose second component is `hash_token256 p` — which is never the submitted
plaintext `p` itself.  (The in-memory backend hashes via `_prep_token`
before storing; the database backend persists through the model, which
stores the digest.) -/
theorem C4_create_get_returns_hash (gen : BasicAuthCredentials)
    (items : List (String × String)) (db : List DataBaseCredentialsCollection.DBRecord)
    (user u p : String)
    (hu1 : u.data ≠ []) (hu2 : ':' ∉ u.data) (hp1 : p.data ≠ []) (hp2 : ':' ∉ p.data) :
    (∀ (details : Details) items2 res,
        details.user = user → details.token = some (u ++ ":" ++ p) →
        MemoryCredentialsCollection.create gen items details = (items2, .ok res) →
        MemoryCredentialsCollection.get items2 user
          = .ok (user, u ++ ":" ++ hash_token256 p) ∧ hash_token256 p ≠ p)
    ∧ (∀ (details : Details) db2 res,
        details.user = user → details.token = some (u ++ ":" ++ p) →
        DataBaseCredentialsCollection.create gen db details = (db2, .ok res) →
        DataBaseCredentialsCollection.get db2 user
          = .ok (user, u ++ ":" ++ hash_token256 p) ∧ hash_token256 p ≠ p) := by
  constructor
  · intro details items2 res hdu hdt hcr
    unfold MemoryCredentialsCollection.create at hcr
    rw [hdu, hdt, prep_token_two u p hu1 hu2 hp1 hp2,
      getAuth_of_wf_token gen u (hash_token256 p) hu1 hu2 (hash_token256_data_ne_nil p)] at hcr
    simp only [] at hcr
    cases hchk : MemoryCredentialsCollection._check_duplicated_username items user u with
    | error e =>
      rw [hchk] at hcr
      simp only [] at hcr
      exact absurd (congrArg Prod.snd hcr) (fun hh => Except.noConfusion hh)
    | ok r =>
      rw [hchk] at hcr
      simp only [] at hcr
      rcases MemoryCredentialsCollection.sampleCreate_cases items user
          (BasicAuthCredentials.toToken ⟨u, hash_token256 p⟩) with ⟨heq, _⟩ | ⟨heq, hnone⟩
      · rw [heq] at hcr
        exact absurd (congrArg Prod.snd hcr) (fun hh => Except.noConfusion hh)
      · rw [heq] at hcr
        have hitems : items ++ [(user, BasicAuthCredentials.toToken ⟨u, hash_token256 p⟩)]
            = items2 := congrArg Prod.fst hcr
        refine ⟨?_, hash_token256_ne_self p⟩
        rw [← hitems]
        unfold MemoryCredentialsCollection.get
        rw [MemoryCredentialsCollection.lookupUser_append_self items user _ hnone]
        rfl
  · intro details db2 res hdu hdt hcr
    unfold DataBaseCredentialsCollection.create at hcr
    rw [hdu, hdt,
      getAuth_of_wf_token gen u p hu1 hu2 hp1] at hcr
    by_cases hk : DataBaseCredentialsCollection.is_known_user db user
    · rw [if_pos hk] at hcr
      exact absurd (congrArg Prod.snd hcr) (fun hh => Except.noConfusion hh)
    · rw [if_neg hk] at hcr
      simp only [] at hcr
      cases hchk : DataBaseCredentialsCollection._check_duplicated_username db user u with
      | error e =>
        rw [hchk] at hcr
        simp only [] at hcr
        exact absurd (congrArg Prod.snd hcr) (fun hh => Except.noConfusion hh)
      | ok r =>
        rw [hchk] at hcr
        simp only [] at hcr
        have hdb : DataBaseCredentialsCollection.add_credentials db user u p = db2 :=
          congrArg Prod.fst hcr
        refine ⟨?_, hash_token256_ne_self p⟩
        rw [← hdb]
        unfold DataBaseCredentialsCollection.add_credentials
        unfold DataBaseCredentialsCollection.get
        have hk2 : ∀ x ∈ db, x.user ≠ user := by
          refine (DataBaseCredentialsCollection.is_known_user_eq_false db user).mp ?_
          simpa using hk
        rw [DataBaseCredentialsCollection.get_by_user_append db user
          ⟨user, u, hash_token256 p⟩ rfl hk2]
        rfl

/-- **C4, witness**: creating `alice` with token `a:secret` in empty
stores succeeds; `get alice` then returns `a:hsecret` (the hash, not the
plaintext) in both backends. -/
theorem C4_witness :
    (MemoryCredentialsCollection.get [("alice", "a:hsecret")] "alice"
        = .ok ("alice", "a" ++ ":" ++ hash_token256 "secret")
      ∧ hash_token256 "secret" ≠ "secret")
    ∧ (DataBaseCredentialsCollection.get [⟨"alice", "a", "hsecret"⟩] "alice"
        = .ok ("alice", "a" ++ ":" ++ hash_token256 "secret")
      ∧ hash_token256 "secret" ≠ "secret") := by
  have h := C4_create_get_returns_hash ⟨"g", "g"⟩ [] [] "alice" "a" "secret"
    (by decide) (by decide) (by decide) (by decide)
  constructor
  · exact h.1 ⟨"alice", some ("a" ++ ":" ++ "secret")⟩ [("alice", "a:hsecret")]
      ("alice", "a:hsecret") rfl rfl (by rfl)
  · exact h.2 ⟨"alice", some ("a" ++ ":" ++ "secret")⟩ [⟨"alice", "a", "hsecret"⟩]
      ("alice", "a:secret") rfl rfl (by rfl)

/-! ### Claim C5 -/

/-- **C5.**  `_prep_token` replaces the second component with its hash
exactly when the token splits (on every `:`, Python `split(':')`
semantics) into two non-empty parts; a token with no `:` separator, a
token with an empty component, and generally any token that does not split
into exactly two parts, is returned unmodified (and no error is raised:
the embedding is a total function). -/
theorem C5_prep_token_cases (t : String) :
    (∀ u p, splitOnColon t.data = [u, p] → u ≠ [] → p ≠ [] →
        _prep_token (some t) = some (String.mk u ++ ":" ++ hash_token256 (String.mk p)))
    ∧ (':' ∉ t.data → _prep_token (some t) = some t)
    ∧ ([] ∈ splitOnColon t.data → _prep_token (some t) = some t)
    ∧ ((splitOnColon t.data).length ≠ 2 → _prep_token (some t) = some t) := by
  refine ⟨?_, ?_, ?_, ?_⟩
  · intro u p hsp hu hp
    show some (prepBody t) = _
    unfold prepBody
    rw [hsp]
    show some (if u ≠ [] ∧ p ≠ [] then String.mk u ++ ":" ++ hash_token256 (String.mk p)
               else t) = _
    rw [if_pos ⟨hu, hp⟩]
  · intro hcf
    show some (prepBody t) = some t
    rw [prepBody_passthrough t (Or.inl (by rw [splitOnColon_no_colon t.data hcf]; simp))]
  · intro hmem
    show some (prepBody t) = some t
    rw [prepBody_passthrough t (Or.inr hmem)]
  · intro hlen
    show some (prepBody t) = some t
    rw [prepBody_passthrough t (Or.inl hlen)]

/-- **C5, witness**: the four cases at concrete tokens — `a:b` is hashed
to `a:hb`, while `ab` (no separator), `a:` (empty component) and `a:b:c`
(three parts) pass through unchanged. -/
theorem C5_witness :
    _prep_token (some "a:b") = some (String.mk ['a'] ++ ":" ++ hash_token256 (String.mk ['b']))
    ∧ _prep_token (some "ab") = some "ab"
    ∧ _prep_token (some "a:") = some "a:"
    ∧ _prep_token (some "a:b:c") = some "a:b:c" :=
  ⟨(C5_prep_token_cases "a:b").1 ['a'] ['b'] (by decide) (by decide) (by decide),
   (C5_prep_token_cases "ab").2.1 (by decide),
   (C5_prep_token_cases "a:").2.2.1 (by decide),
   (C5_prep_token_cases "a:b:c").2.2.2 (by decide)⟩

/-! ### Claim C6 -/

/-- **C6.**  In the database-backed collection, `create` raises
`AlreadyExists` whenever the model already knows the user key — this check
runs first, before the token is even derived, so it wins over any username
conflict.  Otherwise, once the token yields credentials, a stored record
owning the same username under a *different* user key makes `create` fail
with `InvalidResourceDetails` (rolling back, state unchanged); only when
neither check fires does `create` persist through the model and return
the stored representation, and every successful `create` arises this
way. -/
theorem C6_db_create_order (gen : BasicAuthCredentials)
    (db : List DataBaseCredentialsCollection.DBRecord) (details : Details) :
    (DataBaseCredentialsCollection.is_known_user db details.user = true →
        DataBaseCredentialsCollection.create gen db details
          = (db, .error .ResourceAlreadyExists))
    ∧ (∀ auth, DataBaseCredentialsCollection.is_known_user db details.user = false →
        _get_auth gen details.token = some auth →
        ((∃ c, DataBaseCredentialsCollection.get_credentials_by_username db auth.username
              = some c ∧ c.user ≠ details.user) →
          DataBaseCredentialsCollection.create gen db details
            = (db, .error .InvalidResourceDetails))
        ∧ ((∀ c, DataBaseCredentialsCollection.get_credentials_by_username db auth.username
              = some c → c.user = details.user) →
          DataBaseCredentialsCollection.create gen db details
            = (DataBaseCredentialsCollection.add_credentials db details.user
                 auth.username auth.password,
               .ok (details.user, auth.toToken))))
    ∧ (∀ db2 res, DataBaseCredentialsCollection.create gen db details = (db2, .ok res) →
        DataBaseCredentialsCollection.is_known_user db details.user = false
        ∧ ∃ auth, _get_auth gen details.token = some auth
            ∧ (∀ c, DataBaseCredentialsCollection.get_credentials_by_username db auth.username
                = some c → c.user = details.user)
            ∧ db2 = DataBaseCredentialsCollection.add_credentials db details.user
                auth.username auth.password
            ∧ res = (details.user, auth.toToken)) := by
  refine ⟨?_, ?_, ?_⟩
  · intro hk
    unfold DataBaseCredentialsCollection.create
    rw [if_pos hk]
  · intro auth hk hga
    unfold DataBaseCredentialsCollection.create
    rw [if_neg (by simp [hk]), hga]
    simp only []
    constructor
    · rintro ⟨c, hc, hcu⟩
      have hchk : DataBaseCredentialsCollection._check_duplicated_username db
          details.user auth.username = .error .InvalidResourceDetails := by
        rw [DataBaseCredentialsCollection.check_cons_eq, hc]
        simp only []
        rw [if_pos hcu]
      rw [hchk]
    · intro hall
      have hchk : DataBaseCredentialsCollection._check_duplicated_username db
          details.user auth.username = .ok () := by
        cases hc : DataBaseCredentialsCollection.get_credentials_by_username db
            auth.username with
        | none => rw [DataBaseCredentialsCollection.check_cons_eq, hc]
        | some c =>
          rw [DataBaseCredentialsCollection.check_cons_eq, hc]
          simp only []
          rw [if_neg (by simp [hall c hc])]
      rw [hchk]
  · intro db2 res hcr
    unfold DataBaseCredentialsCollection.create at hcr
    by_cases hk : DataBaseCredentialsCollection.is_known_user db details.user
    · rw [if_pos hk] at hcr
      exact absurd (congrArg Prod.snd hcr) (fun hh => Except.noConfusion hh)
    · rw [if_neg hk] at hcr
      refine ⟨by simpa using hk, ?_⟩
      cases hga : _get_auth gen details.token with
      | none =>
        rw [hga] at hcr
        simp only [] at hcr
        exact absurd (congrArg Prod.snd hcr) (fun hh => Except.noConfusion hh)
      | some auth =>
        rw [hga] at hcr
        simp only [] at hcr
        cases hchk : DataBaseCredentialsCollection._check_duplicated_username db
            details.user auth.username with
        | error e =>
          rw [hchk] at hcr
          simp only [] at hcr
          exact absurd (congrArg Prod.snd hcr) (fun hh => Except.noConfusion hh)
        | ok r =>
          rw [hchk] at hcr
          simp only [] at hcr
          refine ⟨auth, rfl, ?_, (congrArg Prod.fst hcr).symm,
            (Except.ok.inj (congrArg Prod.snd hcr)).symm⟩
          intro c hc
          rw [DataBaseCredentialsCollection.check_cons_eq, hc] at hchk
          simp only [] at hchk
          by_cases hcu : c.user ≠ details.user
          · rw [if_pos hcu] at hchk
            exact absurd hchk (fun hh => Except.noConfusion hh)
          · push_neg at hcu
            exact hcu

/-- **C6, witness**: with `bob` already known, create for `bob` fails with
`AlreadyExists` even though the token username `a` belongs to `alice`
elsewhere; with only `alice` holding username `a`, create for `bob` with
token `a:p` fails with `InvalidResourceDetails`; with a fresh username it
persists the (hashed) record and returns the stored representation. -/
theorem C6_witness :
    DataBaseCredentialsCollection.create ⟨"g", "g"⟩
        [⟨"bob", "b", "h1"⟩] ⟨"bob", some "a:p"⟩
      = ([⟨"bob", "b", "h1"⟩], .error .ResourceAlreadyExists)
    ∧ DataBaseCredentialsCollection.create ⟨"g", "g"⟩
        [⟨"alice", "a", "h1"⟩] ⟨"bob", some "a:p"⟩
      = ([⟨"alice", "a", "h1"⟩], .error .InvalidResourceDetails)
    ∧ DataBaseCredentialsCollection.create ⟨"g", "g"⟩
        [⟨"alice", "a", "h1"⟩] ⟨"bob", some "b:p"⟩
      = ([⟨"alice", "a", "h1"⟩, ⟨"bob", "b", hash_token256 "p"⟩], .ok ("bob", "b:p")) := by
  refine ⟨?_, ?_, ?_⟩
  · exact (C6_db_create_order ⟨"g", "g"⟩ [⟨"bob", "b", "h1"⟩] ⟨"bob", some "a:p"⟩).1 rfl
  · exact ((C6_db_create_order ⟨"g", "g"⟩ [⟨"alice", "a", "h1"⟩] ⟨"bob", some "a:p"⟩).2.1
      ⟨"a", "p"⟩ rfl rfl).1 ⟨⟨"alice", "a", "h1"⟩, rfl, by decide⟩
  · exact ((C6_db_create_order ⟨"g", "g"⟩ [⟨"alice", "a", "h1"⟩] ⟨"bob", some "b:p"⟩).2.1
      ⟨"b", "p"⟩ rfl rfl).2
      (fun c hc => Option.noConfusion
        (show (none : Option DataBaseCredentialsCollection.DBRecord) = some c from hc))

/-! ### Claim C7 -/

/-- **C7.**  In the database-backed collection, `update` for an unknown
user fails with `ResourceNotFound` and leaves the state unchanged (the
transaction rolls back before any write); and when a record for a user
exists, the first `delete` succeeds (removing the record) and a second
`delete` of the same user fails with `ResourceNotFound`, again leaving the
state unchanged. -/
theorem C7_db_update_notfound_delete_twice (gen : BasicAuthCredentials)
    (db : List DataBaseCredentialsCollection.DBRecord) (user : String) (details : Details)
    (r : DataBaseCredentialsCollection.DBRecord) :
    (DataBaseCredentialsCollection.is_known_user db user = false →
        DataBaseCredentialsCollection.update gen db user details
          = (db, .error .ResourceNotFound))
    ∧ (r ∈ db → r.user = user →
        ∃ db2, DataBaseCredentialsCollection.delete db user = (db2, .ok ())
          ∧ DataBaseCredentialsCollection.delete db2 user
              = (db2, .error .ResourceNotFound)) := by
  constructor
  · intro hk
    unfold DataBaseCredentialsCollection.update
    rw [if_neg (by simp [hk])]
  · intro hmem hruser
    have hk : DataBaseCredentialsCollection.is_known_user db user = true :=
      (DataBaseCredentialsCollection.is_known_user_eq_true db user).mpr ⟨r, hmem, hruser⟩
    refine ⟨db.filter (fun x => !decide (x.user = user)), ?_, ?_⟩
    · show (if DataBaseCredentialsCollection.is_known_user db user
            then (db.filter (fun x => !decide (x.user = user)), (Except.ok () : Except CollError Unit))
            else (db, Except.error CollError.ResourceNotFound)) = _
      rw [if_pos hk]
    · have hk2 : DataBaseCredentialsCollection.is_known_user
          (db.filter (fun x => !decide (x.user = user))) user = false := by
        rw [DataBaseCredentialsCollection.is_known_user_eq_false]
        intro x hx
        have := List.of_mem_filter hx
        simpa using this
      show (if DataBaseCredentialsCollection.is_known_user
              (db.filter (fun x => !decide (x.user = user))) user
            then ((db.filter (fun x => !decide (x.user = user))).filter
                    (fun x => !decide (x.user = user)), (Except.ok () : Except CollError Unit))
            else (db.filter (fun x => !decide (x.user = user)),
                  Except.error CollError.ResourceNotFound)) = _
      rw [if_neg (by simp [hk2])]

/-- **C7, witness**: updating unknown `bob` fails with `NotFound`;
deleting `alice` succeeds once and fails with `NotFound` the second
time. -/
theorem C7_witness :
    DataBaseCredentialsCollection.update ⟨"g", "g"⟩ [⟨"alice", "a", "h"⟩] "bob"
        ⟨"bob", some "b:p"⟩
      = ([⟨"alice", "a", "h"⟩], .error .ResourceNotFound)
    ∧ ∃ db2, DataBaseCredentialsCollection.delete [⟨"alice", "a", "h"⟩] "alice"
          = (db2, .ok ())
        ∧ DataBaseCredentialsCollection.delete db2 "alice"
            = (db2, .error .ResourceNotFound) :=
  ⟨(C7_db_update_notfound_delete_twice ⟨"g", "g"⟩ [⟨"alice", "a", "h"⟩] "bob"
      ⟨"bob", some "b:p"⟩ ⟨"alice", "a", "h"⟩).1 rfl,
   (C7_db_update_notfound_delete_twice ⟨"g", "g"⟩ [⟨"alice", "a", "h"⟩] "alice"
      ⟨"bob", some "b:p"⟩ ⟨"alice", "a", "h"⟩).2 (List.mem_singleton.mpr rfl) rfl⟩

/-! ### Claim C8 -/

/-- **C8, counterexample.**  The claim says every public operation of the
in-memory collection (including `get_all` and `api_credentials_match`)
acquires the exclusive lock at entry.  In `collection.py`, `get_all` and
`api_credentials_match` are declared without the `@locking` decorator:
their traces contain no lock acquisition at all. -/
theorem C8_counterexample :
    memOpTrace MemPublicOp.get_all = [LockEvent.body]
    ∧ LockEvent.acquire ∉ memOpTrace MemPublicOp.get_all
    ∧ memOpTrace MemPublicOp.api_credentials_match = [LockEvent.body]
    ∧ LockEvent.acquire ∉ memOpTrace MemPublicOp.api_credentials_match := by decide

/-- **C8, amended.**  Every public operation of the in-memory collection
*except* `get_all` and `api_credentials_match` runs under the `locking`
wrapper: its trace acquires the single exclusive lock at entry, holds it
across the whole body and releases it at exit (the wrapper releases on
every exit path); `get_all` and `api_credentials_match` run their bodies
without touching the lock. -/
theorem C8_locking_discipline (op : MemPublicOp) :
    memOpTrace op =
      (if op = MemPublicOp.get_all ∨ op = MemPublicOp.api_credentials_match
       then [LockEvent.body]
       else [LockEvent.acquire, LockEvent.body, LockEvent.release]) := by
  cases op <;> decide

/-! ### Claim C9 -/

/-- **C9.**  When the submitted details carry no token (missing key or
`None`, both embedded as `none`) or an empty-string token, neither
backend's `create`/`update` raises a malformed-token error (for the
in-memory backend, provided the already-stored tokens parse — its
duplicate check re-parses them): the Python-falsy token makes `_prep_token`
pass it through and `_get_auth` generate a fresh credential pair, whose
serialized form `str(gen)` is what gets stored and returned in place of
the missing token. -/
theorem C9_missing_token_generates (gen : BasicAuthCredentials) (tok : Option String)
    (user : String) (items : List (String × String))
    (db : List DataBaseCredentialsCollection.DBRecord)
    (h : tok = none ∨ tok = some "") :
    _prep_token tok = tok
    ∧ _get_auth gen tok = some gen
    ∧ ((∀ e ∈ items, (BasicAuthCredentials.from_token e.2).isSome = true) →
        (MemoryCredentialsCollection.create gen items ⟨user, tok⟩).2
          ≠ .error .MalformedToken)
    ∧ (DataBaseCredentialsCollection.create gen db ⟨user, tok⟩).2 ≠ .error .MalformedToken
    ∧ (∀ items2 res, MemoryCredentialsCollection.create gen items ⟨user, tok⟩
          = (items2, .ok res) →
        res = (user, gen.toToken) ∧ items2 = items ++ [(user, gen.toToken)])
    ∧ (∀ db2 res, DataBaseCredentialsCollection.create gen db ⟨user, tok⟩ = (db2, .ok res) →
        res = (user, gen.toToken)
        ∧ db2 = db ++ [⟨user, gen.username, hash_token256 gen.password⟩])
    ∧ ((∀ e ∈ items, (BasicAuthCredentials.from_token e.2).isSome = true) →
        (MemoryCredentialsCollection.update gen items user ⟨user, tok⟩).2
          ≠ .error .MalformedToken)
    ∧ (DataBaseCredentialsCollection.update gen db user ⟨user, tok⟩).2
        ≠ .error .MalformedToken
    ∧ (∀ items2 res, MemoryCredentialsCollection.update gen items user ⟨user, tok⟩
          = (items2, .ok res) → res = (user, gen.toToken))
    ∧ (∀ db2 res, DataBaseCredentialsCollection.update gen db user ⟨user, tok⟩
          = (db2, .ok res) → res = (user, gen.toToken)) := by
  have hprep : _prep_token tok = tok := by rcases h with rfl | rfl <;> rfl
  have hget : _get_auth gen tok = some gen := by rcases h with rfl | rfl <;> rfl
  refine ⟨hprep, hget, ?_, ?_, ?_, ?_, ?_, ?_, ?_, ?_⟩
  · intro hwf hbad
    unfold MemoryCredentialsCollection.create at hbad
    simp only [] at hbad
    rw [hprep, hget] at hbad
    simp only [] at hbad
    cases hchk : MemoryCredentialsCollection._check_duplicated_username items
        user gen.username with
    | error e =>
      rw [hchk] at hbad
      exact MemoryCredentialsCollection.check_not_malformed items user gen.username hwf
        (hchk.trans (congrArg Except.error (Except.error.inj hbad)))
    | ok r =>
      rw [hchk] at hbad
      simp only [] at hbad
      rcases MemoryCredentialsCollection.sampleCreate_cases items user gen.toToken
        with ⟨heq, _⟩ | ⟨heq, _⟩
      · rw [heq] at hbad
        exact absurd (Except.error.inj hbad) (by decide)
      · rw [heq] at hbad
        exact Except.noConfusion hbad
  · intro hbad
    unfold DataBaseCredentialsCollection.create at hbad
    simp only [] at hbad
    by_cases hk : DataBaseCredentialsCollection.is_known_user db user
    · rw [if_pos hk] at hbad
      exact absurd (Except.error.inj hbad) (by decide)
    · rw [if_neg hk, hget] at hbad
      simp only [] at hbad
      cases hchk : DataBaseCredentialsCollection._check_duplicated_username db
          user gen.username with
      | error e =>
        rw [hchk] at hbad
        exact DataBaseCredentialsCollection.db_check_not_malformed db user gen.username
          (hchk.trans (congrArg Except.error (Except.error.inj hbad)))
      | ok r =>
        rw [hchk] at hbad
        simp only [] at hbad
        exact Except.noConfusion hbad
  · intro items2 res hcr
    unfold MemoryCredentialsCollection.create at hcr
    simp only [] at hcr
    rw [hprep, hget] at hcr
    simp only [] at hcr
    cases hchk : MemoryCredentialsCollection._check_duplicated_username items
        user gen.username with
    | error e =>
      rw [hchk] at hcr
      simp only [] at hcr
      exact absurd (congrArg Prod.snd hcr) (fun hh => Except.noConfusion hh)
    | ok r =>
      rw [hchk] at hcr
      simp only [] at hcr
      rcases MemoryCredentialsCollection.sampleCreate_cases items user gen.toToken
        with ⟨heq, _⟩ | ⟨heq, _⟩
      · rw [heq] at hcr
        exact absurd (congrArg Prod.snd hcr) (fun hh => Except.noConfusion hh)
      · rw [heq] at hcr
        exact ⟨(Except.ok.inj (congrArg Prod.snd hcr)).symm, (congrArg Prod.fst hcr).symm⟩
  · intro db2 res hcr
    unfold DataBaseCredentialsCollection.create at hcr
    simp only [] at hcr
    by_cases hk : DataBaseCredentialsCollection.is_known_user db user
    · rw [if_pos hk] at hcr
      exact absurd (congrArg Prod.snd hcr) (fun hh => Except.noConfusion hh)
    · rw [if_neg hk, hget] at hcr
      simp only [] at hcr
      cases hchk : DataBaseCredentialsCollection._check_duplicated_username db
          user gen.username with
      | error e =>
        rw [hchk] at hcr
        simp only [] at hcr
        exact absurd (congrArg Prod.snd hcr) (fun hh => Except.noConfusion hh)
      | ok r =>
        rw [hchk] at hcr
        simp only [] at hcr
        exact ⟨(Except.ok.inj (congrArg Prod.snd hcr)).symm, (congrArg Prod.fst hcr).symm⟩
  · intro hwf hbad
    unfold MemoryCredentialsCollection.update at hbad
    simp only [] at hbad
    rw [hprep, hget] at hbad
    simp only [] at hbad
    cases hchk : MemoryCredentialsCollection._check_duplicated_username items
        user gen.username with
    | error e =>
      rw [hchk] at hbad
      exact MemoryCredentialsCollection.check_not_malformed items user gen.username hwf
        (hchk.trans (congrArg Except.error (Except.error.inj hbad)))
    | ok r =>
      rw [hchk] at hbad
      simp only [] at hbad
      have hup := MemoryCredentialsCollection.sampleUpdate_error items user gen.toToken
        .MalformedToken hbad
      exact absurd hup.1 (by decide)
  · intro hbad
    unfold DataBaseCredentialsCollection.update at hbad
    by_cases hk : DataBaseCredentialsCollection.is_known_user db user
    · rw [if_pos hk, hget] at hbad
      simp only [] at hbad
      cases hchk : DataBaseCredentialsCollection._check_duplicated_username db
          user gen.username with
      | error e =>
        rw [hchk] at hbad
        exact DataBaseCredentialsCollection.db_check_not_malformed db user gen.username
          (hchk.trans (congrArg Except.error (Except.error.inj hbad)))
      | ok r =>
        rw [hchk] at hbad
        simp only [] at hbad
        exact Except.noConfusion hbad
    · rw [if_neg hk] at hbad
      exact absurd (Except.error.inj hbad) (by decide)
  · intro items2 res hcr
    unfold MemoryCredentialsCollection.update at hcr
    simp only [] at hcr
    rw [hprep, hget] at hcr
    simp only [] at hcr
    cases hchk : MemoryCredentialsCollection._check_duplicated_username items
        user gen.username with
    | error e =>
      rw [hchk] at hcr
      simp only [] at hcr
      exact absurd (congrArg Prod.snd hcr) (fun hh => Except.noConfusion hh)
    | ok r =>
      rw [hchk] at hcr
      simp only [] at hcr
      exact MemoryCredentialsCollection.sampleUpdate_ok items user gen.toToken res
        (congrArg Prod.snd hcr)
  · intro db2 res hcr
    unfold DataBaseCredentialsCollection.update at hcr
    by_cases hk : DataBaseCredentialsCollection.is_known_user db user
    · rw [if_pos hk, hget] at hcr
      simp only [] at hcr
      cases hchk : DataBaseCredentialsCollection._check_duplicated_username db
          user gen.username with
      | error e =>
        rw [hchk] at hcr
        simp only [] at hcr
        exact absurd (congrArg Prod.snd hcr) (fun hh => Except.noConfusion hh)
      | ok r =>
        rw [hchk] at hcr
        simp only [] at hcr
        exact (Except.ok.inj (congrArg Prod.snd hcr)).symm
    · rw [if_neg hk] at hcr
      exact absurd (congrArg Prod.snd hcr) (fun hh => Except.noConfusion hh)

/-- **C9, witness**: with a `None` token and an empty-string token, the
generated pair `gu/gp` is what create stores and returns, and no
malformed-token error arises. -/
theorem C9_witness :
    (MemoryCredentialsCollection.create ⟨"gu", "gp"⟩ [] ⟨"alice", none⟩).2
        ≠ .error .MalformedToken
    ∧ (DataBaseCredentialsCollection.create ⟨"gu", "gp"⟩ [] ⟨"alice", some ""⟩).2
        ≠ .error .MalformedToken
    ∧ ("alice", "gu:gp") = ("alice", BasicAuthCredentials.toToken ⟨"gu", "gp"⟩)
    ∧ [("alice", "gu:gp")] = [] ++ [("alice", BasicAuthCredentials.toToken ⟨"gu", "gp"⟩)]
    ∧ ("bob", "gu:gp") = ("bob", BasicAuthCredentials.toToken ⟨"gu", "gp"⟩) := by
  have h1 := C9_missing_token_generates ⟨"gu", "gp"⟩ none "alice" [] [] (Or.inl rfl)
  have h2 := C9_missing_token_generates ⟨"gu", "gp"⟩ (some "") "alice" [] [] (Or.inr rfl)
  have h3 := C9_missing_token_generates ⟨"gu", "gp"⟩ none "bob"
    [("bob", "b:h")] [] (Or.inl rfl)
  obtain ⟨-, -, hne1, -, hok1, -, -, -, -, -⟩ := h1
  obtain ⟨-, -, -, hne2, -, -, -, -, -, -⟩ := h2
  obtain ⟨-, -, -, -, -, -, -, -, huok, -⟩ := h3
  have hempty : ∀ e ∈ ([] : List (String × String)),
      (BasicAuthCredentials.from_token e.2).isSome = true :=
    fun e he => absurd he (List.not_mem_nil e)
  refine ⟨hne1 hempty, hne2, ?_, ?_, ?_⟩
  · exact (hok1 [("alice", "gu:gp")] ("alice", "gu:gp") (by rfl)).1
  · exact (hok1 [("alice", "gu:gp")] ("alice", "gu:gp") (by rfl)).2
  · exact huok [("bob", "gu:gp")] ("bob", "gu:gp") (by rfl)

/-! ### Claim C10 -/

/-- **C10.**  In the in-memory collection, whenever `create` or `update`
fails with `InvalidResourceDetails` (the requested username belongs to a
different user), the stored `items` mapping after the failed call is
exactly the mapping before it: the duplicate-username check raises before
the generic insert/overwrite is reached. -/
theorem C10_invalid_details_leaves_items (gen : BasicAuthCredentials)
    (items : List (String × String)) (user : String) (details : Details) :
    ((MemoryCredentialsCollection.create gen items details).2
        = .error .InvalidResourceDetails →
      (MemoryCredentialsCollection.create gen items details).1 = items)
    ∧ ((MemoryCredentialsCollection.update gen items user details).2
        = .error .InvalidResourceDetails →
      (MemoryCredentialsCollection.update gen items user details).1 = items) := by
  constructor
  · intro h
    unfold MemoryCredentialsCollection.create at h ⊢
    cases hga : _get_auth gen (_prep_token details.token) with
    | none => rfl
    | some auth =>
      rw [hga] at h
      simp only [] at h ⊢
      cases hchk : MemoryCredentialsCollection._check_duplicated_username items
          details.user auth.username with
      | error e => rfl
      | ok r =>
        rw [hchk] at h
        simp only [] at h
        rcases MemoryCredentialsCollection.sampleCreate_cases items details.user auth.toToken
          with ⟨heq, _⟩ | ⟨heq, _⟩
        · rw [heq] at h
          exact absurd (Except.error.inj h) (by decide)
        · rw [heq] at h
          exact Except.noConfusion h
  · intro h
    unfold MemoryCredentialsCollection.update at h ⊢
    cases hga : _get_auth gen (_prep_token details.token) with
    | none => rfl
    | some auth =>
      rw [hga] at h
      simp only [] at h ⊢
      cases hchk : MemoryCredentialsCollection._check_duplicated_username items
          user auth.username with
      | error e => rfl
      | ok r =>
        rw [hchk] at h
        simp only [] at h
        have hup := MemoryCredentialsCollection.sampleUpdate_error items user auth.toToken
          .InvalidResourceDetails h
        exact absurd hup.1 (by decide)

/-- **C10, witness**: `alice` owns username `a`; creating or updating
`bob` with token `a:p` fails with `InvalidResourceDetails` and leaves the
mapping untouched. -/
theorem C10_witness :
    (MemoryCredentialsCollection.create ⟨"g", "g"⟩ [("alice", "a:h")]
        ⟨"bob", some "a:p"⟩).1 = [("alice", "a:h")]
    ∧ (MemoryCredentialsCollection.update ⟨"g", "g"⟩ [("alice", "a:h")] "bob"
        ⟨"bob", some "a:p"⟩).1 = [("alice", "a:h")] :=
  ⟨(C10_invalid_details_leaves_items ⟨"g", "g"⟩ [("alice", "a:h")] "bob"
      ⟨"bob", some "a:p"⟩).1 (by rfl),
   (C10_invalid_details_leaves_items ⟨"g", "g"⟩ [("alice", "a:h")] "bob"
      ⟨"bob", some "a:p"⟩).2 (by rfl)⟩

end BasicAuth
